import Mathlib

/-!
Verification development for the applicant-tracking matching engine
(`multistage/`).  The Python sources are shallowly embedded: pure text
processing from `Shared/normalizer.py` becomes functions on `List Char`
wrapped in `String`, database rows become structures, SQL queries become
list/`Finset` computations, Python `float` arithmetic is idealized as `ℚ`
(and `ℝ` where `math.log` is involved), and Python exceptions
(`KeyError`, `AttributeError`) are modelled with `Except String`.
-/

/-! ## Python-flavoured character and string helpers -/

/-- Python regex `\s` character class (ASCII): space, tab, newline,
carriage return, vertical tab, form feed. -/
def isPySpace (c : Char) : Bool :=
  c = ' ' || c = '\t' || c = '\n' || c = '\r' || c = '\x0b' || c = '\x0c'

/-- Python regex `\w` character class (ASCII fragment): letters, digits,
underscore. -/
def isPyWord (c : Char) : Bool :=
  c.isAlphanum || c = '_'

/-- Python `str.lower()` (ASCII fragment). -/
def pyLower (s : String) : String :=
  String.mk (s.data.map Char.toLower)

/-- Python `str.strip()`: drop leading and trailing whitespace. -/
def pyStrip (s : String) : String :=
  String.mk (((s.data.dropWhile isPySpace).reverse.dropWhile isPySpace).reverse)

/-- Replace every maximal run of characters satisfying `p` by a single
space, as `re.sub(cls + "+", " ", text)` does.  The boolean argument
records whether the previous character was part of such a run. -/
def collapseRuns (p : Char → Bool) : Bool → List Char → List Char
  | _, [] => []
  | inRun, c :: cs =>
    if p c then
      (if inRun then collapseRuns p true cs else ' ' :: collapseRuns p true cs)
    else c :: collapseRuns p false cs

/-- Python substring test `needle in hay` on character lists. -/
def containsSub : List Char → List Char → Bool
  | n, [] => n.isEmpty
  | n, c :: cs => n.isPrefixOf (c :: cs) || containsSub n cs

/-- Python substring test `needle in hay` on strings. -/
def strContains (hay needle : String) : Bool :=
  containsSub needle.data hay.data

/-- Python `str.replace` (all occurrences, left to right), with fuel equal
to the input length; every recursive call consumes at least one input
character, so the fuel is sufficient. -/
def replaceSubFuel (pat rep : List Char) : Nat → List Char → List Char
  | 0, l => l
  | _ + 1, [] => []
  | n + 1, c :: cs =>
    if pat ≠ [] && pat.isPrefixOf (c :: cs) then
      rep ++ replaceSubFuel pat rep n ((c :: cs).drop pat.length)
    else c :: replaceSubFuel pat rep n cs

/-- Python `str.replace` on strings (for non-empty patterns). -/
def pyReplace (s pat rep : String) : String :=
  String.mk (replaceSubFuel pat.data rep.data s.data.length s.data)

/-! ## `Shared/normalizer.py`: text canonicalization -/

/-- Characters kept verbatim by `normalize_text`: the regex there replaces
`[^\w\s\.\+#]` by a space. -/
def normKeep (c : Char) : Bool :=
  isPyWord c || isPySpace c || c = '.' || c = '+' || c = '#'

/-- Embeds `normalize_text`: lowercase and strip, replace every character
outside `[\w\s.+#]` by a space, then collapse whitespace runs to a single
space. -/
def normalize_text (text : String) : String :=
  if text = "" then ""
  else
    let t := (pyStrip (pyLower text)).data
    let t := t.map (fun c => if normKeep c then c else ' ')
    String.mk (collapseRuns isPySpace false t)

/-- Separator characters collapsed by `normalize_skill_text2`
(regex `[_\-\/]+`). -/
def isSepChar (c : Char) : Bool :=
  c = '_' || c = '-' || c = '/'

/-- Remove every regex match of `\b` + `w` + `\b` (for a word `w` made of
word characters): split the text into maximal runs of word/non-word
characters and drop the word runs equal to `w`. -/
def removeWholeWord (w : String) (l : List Char) : List Char :=
  ((l.splitBy (fun a b => isPyWord a == isPyWord b)).filter
    (fun run => run ≠ w.data)).flatten

/-- One step of `re.sub("\b" + w + "\s*" + d + "\b", w, text)` over the
word/non-word run decomposition: a single run `w ++ [d]`, or a run `w`
followed by a whitespace run followed by a run `[d]`, is replaced by `w`.
Fuelled by the number of runs (each step consumes at least one run). -/
def foldVersionRuns (w : List Char) (d : Char) : Nat → List (List Char) → List (List Char)
  | 0, rs => rs
  | _ + 1, [] => []
  | fuel + 1, r :: rs =>
    if r = w ++ [d] then w :: foldVersionRuns w d fuel rs
    else
      match rs with
      | s :: r2 :: rs2 =>
        if r = w && s.all isPySpace && !s.isEmpty && r2 = [d] then
          w :: foldVersionRuns w d fuel rs2
        else r :: foldVersionRuns w d fuel rs
      | _ => r :: foldVersionRuns w d fuel rs

/-- Apply `foldVersionRuns` to a character list via its run decomposition. -/
def foldVersion (w : String) (d : Char) (l : List Char) : List Char :=
  let runs := l.splitBy (fun a b => isPyWord a == isPyWord b)
  (foldVersionRuns w.data d runs.length runs).flatten

/-- Embeds `normalize_skill_text2`: lowercase/strip, drop periods, map
separator runs to a space, drop the decorative words `programming`,
`language`, `framework`, fold `html 5`/`css 3` version suffixes, rewrite
`c sharp`/`csharp` to `c#`, collapse whitespace and strip. -/
def normalize_skill_text2 (text : String) : String :=
  if text = "" then ""
  else
    let t := (pyStrip (pyLower text)).data
    let t := t.filter (fun c => c ≠ '.')
    let t := collapseRuns isSepChar false t
    let t := removeWholeWord "programming" t
    let t := removeWholeWord "language" t
    let t := removeWholeWord "framework" t
    let t := foldVersion "html" '5' t
    let t := foldVersion "css" '3' t
    let t := (pyReplace (pyReplace (String.mk t) "c sharp" "c#") "csharp" "c#").data
    pyStrip (String.mk (collapseRuns isPySpace false t))

/-- Character class of the token regex `[a-z0-9\+#\.]+` in
`tokenize_text`. -/
def isTokChar (c : Char) : Bool :=
  ('a' ≤ c && c ≤ 'z') || c.isDigit || c = '+' || c = '#' || c = '.'

/-- Regex word boundary `\b` between two optional characters (out of range
counts as non-word): the word-ness of the two sides differs. -/
def wordBoundary (a b : Option Char) : Bool :=
  (a.any isPyWord) != (b.any isPyWord)

/-- Backtracking step of the token regex: try candidate lengths
`k, k-1, ..., 1` for a match starting at `l`, requiring a word boundary
after the candidate.  Returns the token and the rest of the input. -/
def tryTokLen (l run : List Char) : Nat → Option (List Char × List Char)
  | 0 => none
  | k + 1 =>
    let cand := run.take (k + 1)
    if wordBoundary cand.getLast? (l.get? (k + 1)) then
      some (cand, l.drop (k + 1))
    else tryTokLen l run k

/-- Scanner for `re.findall("\b[a-z0-9\+#\.]+\b", text)`: at each position
with a word boundary and a token-class character, match greedily with
backtracking; afterwards continue after the match.  Fuelled by the input
length (each step consumes at least one character). -/
def findTokensAux (prev : Option Char) : Nat → List Char → List (List Char)
  | 0, _ => []
  | _, [] => []
  | fuel + 1, c :: cs =>
    if wordBoundary prev (some c) && isTokChar c then
      match tryTokLen (c :: cs) ((c :: cs).takeWhile isTokChar)
          ((c :: cs).takeWhile isTokChar).length with
      | some (tok, rest) => tok :: findTokensAux tok.getLast? fuel rest
      | none => findTokensAux (some c) fuel cs
    else findTokensAux (some c) fuel cs

/-- Embeds `tokenize_text`: the set of regex tokens of the lowercased
text.  The Python `set` is modelled as a deduplicated list (membership and
cardinality agree). -/
def tokenize_text (text : String) : List String :=
  ((findTokensAux none (text.data.length + 1) (pyLower text).data).map
    String.mk).dedup

example : normalize_text "Hello,  World!" = "hello world " := by decide
example : normalize_skill_text2 "React.js" = "reactjs" := by decide
example : normalize_skill_text2 "C Sharp programming" = "c#" := by decide
example : normalize_skill_text2 "HTML 5" = "html" := by decide
example : normalize_skill_text2 "Java language" = "java" := by decide
example : tokenize_text "asp dotnet mvc" = ["asp", "dotnet", "mvc"] := by decide
example : tokenize_text "c++" = ["c"] := by decide
example : tokenize_text "a_b" = [] := by decide

/-! ## `Shared/normalizer.py`: disambiguation and the four-tier matcher -/

/-- Parsed `DisambiguationRules` JSON object; a missing key defaults to
the empty list (`rules.get(..., [])`). -/
structure DisambRules where
  block_if_contains : List String
  allow_if_contains : List String
deriving DecidableEq

/-- Row of the `MasterSkills` table as the engine reads it.  JSON-typed
columns are modelled by their parse outcome: `none` for a NULL/empty
column (falsy in Python), `some none` for malformed JSON
(`json.loads` raises), `some (some v)` for parsed contents. -/
structure MasterSkill where
  SkillID : Int
  SkillName : String
  SkillCode : String
  SkillType : String
  Category : String
  ParentSkillId : Option Int
  Aliases : Option (Option (List String))
  Tokens : Option (Option (List String))
  DisambiguationRules : Option (Option DisambRules)
deriving DecidableEq

/-- Entry of the in-memory vector index.  Every caller in the repository
passes rows of a `SELECT ... FROM MasterSkills` for this, and such rows
have no `skill_ref` attribute, which is modelled by `skill_ref = none`
(attribute access on it raises `AttributeError`). -/
structure VectorEntry where
  embedding : List ℚ
  skill_ref : Option MasterSkill

/-- Embeds `passes_disambiguation`: missing (`none`) or malformed
(`some none`) rules fail open; otherwise any blocking phrase in the
combined lowered text blocks, else a non-empty allow list requires one of
its phrases to occur. -/
def passes_disambiguation (skill : MasterSkill) (normalized context : String) : Bool :=
  match skill.DisambiguationRules with
  | none => true
  | some none => true
  | some (some rules) =>
    let combined := pyLower (normalized ++ " " ++ context)
    if rules.block_if_contains.any (fun b => strContains combined (pyLower b)) then false
    else if !rules.allow_if_contains.isEmpty then
      rules.allow_if_contains.any (fun a => strContains combined (pyLower a))
    else true

/-- Result tuple `(SkillID, SkillCode, SkillType, confidence, method)` of
`normalize_and_match_skill`. -/
structure MatchResult where
  skill_id : Option Int
  skill_code : Option String
  skill_type : Option String
  confidence : ℚ
  method : String
deriving DecidableEq

/-- The no-match tuple `(None, None, None, 0.0, method)`. -/
def MatchResult.nothing (method : String) : MatchResult :=
  ⟨none, none, none, 0, method⟩

/-- The positive-match tuple for a master skill. -/
def MatchResult.hit (sk : MasterSkill) (confidence : ℚ) (method : String) : MatchResult :=
  ⟨some sk.SkillID, some sk.SkillCode, some sk.SkillType, confidence, method⟩

/-- Aliases list iterated by the alias tier (`continue` on NULL or
malformed JSON). -/
def parsedAliases (sk : MasterSkill) : List String :=
  match sk.Aliases with
  | some (some l) => l
  | _ => []

/-- Round-half-to-even on `ℚ`, as Python `round` behaves on exactly
representable values. -/
def roundHalfEvenQ (x : ℚ) : Int :=
  let f := ⌊x⌋
  let frac := x - f
  if frac < 1/2 then f
  else if 1/2 < frac then f + 1
  else if Even f then f else f + 1

/-- Python `round(x, n)` on `ℚ`. -/
def pyRoundQ (n : Nat) (x : ℚ) : ℚ :=
  (roundHalfEvenQ (x * 10 ^ n) : ℚ) / 10 ^ n

/-- Token-tier predicate for one master skill: parsed token list present,
the single-letter-token guardrail passes, and every token (lowered)
occurs in the token set of the canonicalized raw text. -/
def tokenRuleMatches (normalized_tokens : List String) (sk : MasterSkill) : Bool :=
  match sk.Tokens with
  | some (some tokens) =>
    if tokens.any (fun t => t.length = 1) && normalized_tokens.length > 1 then false
    else tokens.all (fun t => normalized_tokens.contains (pyLower t))
  | _ => false

/-- Embeds `normalize_and_match_skill`.  The cosine routine of
`Shared/vector.py` (numpy dot/norm arithmetic) is abstracted as the
function argument `cosF`; `embed_fn = none` models passing no embedder.
The tiers run in order (exact, alias, token/rule, vector) and the
function returns at the first tier that fires, including a
`disambiguation_blocked` outcome.  A successful vector match reads
`best_skill.skill_ref`; on index entries without that attribute this
raises `AttributeError`, modelled as `Except.error`. -/
def normalize_and_match_skill (cosF : List ℚ → List ℚ → ℚ) (raw_name : String)
    (master_skills : List MasterSkill) (vector_index : List VectorEntry)
    (embed_fn : Option (String → List ℚ)) (context_text : String)
    (allow_implicit : Bool) : Except String MatchResult :=
  let _ := allow_implicit
  let normalized := normalize_skill_text2 (normalize_text raw_name)
  if normalized = "" then .ok (.nothing "empty")
  else
    let context := normalize_text context_text
    match master_skills.find?
        (fun sk => normalize_skill_text2 (normalize_text sk.SkillName) == normalized) with
    | some sk =>
      if passes_disambiguation sk normalized context then .ok (.hit sk 1 "exact")
      else .ok (.nothing "disambiguation_blocked")
    | none =>
    match master_skills.find?
        (fun sk => (parsedAliases sk).any
          (fun al => normalize_skill_text2 (normalize_text al) == normalized)) with
    | some sk =>
      if passes_disambiguation sk normalized context then .ok (.hit sk 0.95 "alias")
      else .ok (.nothing "disambiguation_blocked")
    | none =>
    let normalized_tokens := tokenize_text normalized
    match master_skills.find? (tokenRuleMatches normalized_tokens) with
    | some sk =>
      if passes_disambiguation sk normalized context then .ok (.hit sk 0.9 "rule")
      else .ok (.nothing "disambiguation_blocked")
    | none =>
    match embed_fn with
    | some f =>
      if !vector_index.isEmpty then
        let query_vec := f normalized
        let best := vector_index.foldl
          (fun (acc : Option VectorEntry × ℚ) entry =>
            let score := cosF query_vec entry.embedding
            if acc.2 < score then (some entry, score) else acc)
          (none, 0)
        match best.1 with
        | some best_skill =>
          if 0.92 ≤ best.2 then
            match best_skill.skill_ref with
            | none => .error "AttributeError: Row object has no attribute skill_ref"
            | some sk =>
              if passes_disambiguation sk normalized context then
                .ok (.hit sk (pyRoundQ 3 best.2) "vector")
              else .ok (.nothing "disambiguation_blocked")
          else .ok (.nothing "no_match")
        | none => .ok (.nothing "no_match")
      else .ok (.nothing "no_match")
    | none => .ok (.nothing "no_match")

/-! ## Dates

Python `datetime`/`date` values are modelled by year-month-day triples;
comparison is field-lexicographic, exactly as in Python.  Day arithmetic
(`timedelta`, `.days`) goes through the proleptic Gregorian ordinal. -/

/-- Gregorian leap-year test. -/
def isLeapYear (y : Int) : Bool :=
  (y % 4 = 0 && y % 100 ≠ 0) || y % 400 = 0

/-- Number of days in a month (`calendar.monthrange(year, month)[1]`). -/
def daysInMonth (y m : Int) : Int :=
  if m = 2 then (if isLeapYear y then 29 else 28)
  else if m = 4 || m = 6 || m = 9 || m = 11 then 30
  else 31

/-- Calendar date (also standing in for a `datetime` at midnight). -/
structure Date where
  year : Int
  month : Int
  day : Int
deriving DecidableEq

/-- Calendar validity of a date. -/
def Date.Valid (d : Date) : Prop :=
  1 ≤ d.month ∧ d.month ≤ 12 ∧ 1 ≤ d.day ∧ d.day ≤ daysInMonth d.year d.month

instance (d : Date) : Decidable d.Valid := by
  unfold Date.Valid; infer_instance

/-- Python `date.__lt__`: field-lexicographic strict order. -/
def Date.ltB (a b : Date) : Bool :=
  a.year < b.year ||
    (a.year = b.year && (a.month < b.month ||
      (a.month = b.month && a.day < b.day)))

/-- Python `min` of two dates. -/
def Date.minD (a b : Date) : Date := if Date.ltB b a then b else a

/-- Python `max` of two dates. -/
def Date.maxD (a b : Date) : Date := if Date.ltB a b then b else a

/-- Cumulative day count before month `m` in a non-leap year. -/
def daysBeforeMonth (m : Int) : Int :=
  if m ≤ 1 then 0 else if m = 2 then 31 else if m = 3 then 59
  else if m = 4 then 90 else if m = 5 then 120 else if m = 6 then 151
  else if m = 7 then 181 else if m = 8 then 212 else if m = 9 then 243
  else if m = 10 then 273 else if m = 11 then 304 else 334

/-- Proleptic Gregorian ordinal (`date.toordinal`): day 1 is 0001-01-01.
Date comparison and day differences (`timedelta.days`) are computed on
these ordinals. -/
def Date.ordinal (d : Date) : Int :=
  365 * (d.year - 1) + (d.year - 1) / 4 - (d.year - 1) / 100 +
    (d.year - 1) / 400 + daysBeforeMonth d.month +
    (if 2 < d.month && isLeapYear d.year then 1 else 0) + d.day

example : Date.ordinal ⟨1, 1, 1⟩ = 1 := by decide
example : Date.ordinal ⟨2026, 1, 1⟩ - Date.ordinal ⟨2025, 12, 1⟩ = 31 := by decide
example : Date.ordinal ⟨2024, 3, 1⟩ - Date.ordinal ⟨2024, 2, 1⟩ = 29 := by decide

/-- Zero-based month index of a date, used for month arithmetic. -/
def Date.monthIndex (d : Date) : Int :=
  d.year * 12 + (d.month - 1)

/-- Adding `n` months to a date as `dateutil.relativedelta` does: shift
the month index and clamp the day to the length of the target month. -/
def addMonths (d : Date) (n : Int) : Date :=
  let t := d.monthIndex + n
  let y := t / 12
  let m := t % 12 + 1
  ⟨y, m, min d.day (daysInMonth y m)⟩

/-- Month component count of `relativedelta(e, s)`, flattened to months
(`delta.years * 12 + delta.months`): start from the raw year/month
difference and, as dateutil's adjustment loop does, decrement while the
start shifted by that many months lies beyond the end.  For `s ≤ e` the
loop body runs at most once, because `addMonths s (m0 - 1)` lands in the
month before `e`'s. -/
def relativedelta_months (s e : Date) : Int :=
  let m0 := (e.year - s.year) * 12 + (e.month - s.month)
  if Date.ltB e (addMonths s m0) then m0 - 1 else m0

example : relativedelta_months ⟨2022, 1, 1⟩ ⟨2024, 1, 1⟩ = 24 := by decide
example : relativedelta_months ⟨2022, 1, 31⟩ ⟨2022, 3, 1⟩ = 1 := by decide
example : relativedelta_months ⟨2022, 1, 31⟩ ⟨2022, 2, 28⟩ = 1 := by decide

/-! ## `Candidate/postprocessor.py`: `calculate_duration`

The external `dateutil.parser.parse` is abstracted as a
`String → Option Date` argument (`none` models a parse exception). -/

/-- Embeds `calculate_duration`: a falsy `end_raw` becomes `"Present"`;
an end containing `present` (case-insensitively) or equal to `"N/A"`
resolves to the reference date; any parse failure yields 0; otherwise the
duration is the flattened month count of `relativedelta(end, start)`. -/
def calculate_duration (parse : String → Option Date) (start_raw : Option String)
    (end_raw : Option String) (ref_date : Date) : Int :=
  let e_raw := match end_raw with
    | none => "Present"
    | some s => if s = "" then "Present" else s
  match start_raw.bind parse with
  | none => 0
  | some start_dt =>
    let end_dt : Option Date :=
      if strContains (pyLower e_raw) "present" || e_raw = "N/A" then some ref_date
      else parse e_raw
    match end_dt with
    | none => 0
    | some end_dt => relativedelta_months start_dt end_dt

/-! ## `Employer/schemas/LLMResponse.py`: requirement model -/

/-- Enumeration `RequirementLevel`. -/
inductive ReqLevel
  | hard
  | soft
deriving DecidableEq

/-- Enumeration `SkillTypeHint`; `value` is the string the engine uses in
weight-table lookups. -/
inductive SkillTypeHint
  | programming
  | framework
  | cloud
  | database
  | tool
  | platform
  | methodology
  | other
deriving DecidableEq

/-- String value of a `SkillTypeHint` (the Python enum is a `str` enum). -/
def SkillTypeHint.value : SkillTypeHint → String
  | .programming => "programming"
  | .framework => "framework"
  | .cloud => "cloud"
  | .database => "database"
  | .tool => "tool"
  | .platform => "platform"
  | .methodology => "methodology"
  | .other => "other"

/-- Enumeration `ExpectedEvidence`. -/
inductive ExpectedEvidence
  | resume_skill
  | experience_role
  | project
  | implicit
deriving DecidableEq

/-- Enumeration `SkillSource`. -/
inductive SkillSource
  | explicit
  | inferred
deriving DecidableEq

/-- Enumeration `SeniorityLevel`. -/
inductive SeniorityLevel
  | junior
  | mid
  | senior
  | lead
deriving DecidableEq

/-- `SkillRequirement` as the post-processor sees it: `min_months` is the
`Optional[int]` field (`none` models a JSON `null`). -/
structure SkillRequirement where
  raw_skill : String
  source : SkillSource
  requirement_level : ReqLevel
  skill_type_hint : SkillTypeHint
  min_months : Option Int
  expected_evidence : ExpectedEvidence
deriving DecidableEq

/-- `CategoryRequirement`. -/
structure CategoryRequirement where
  group_id : String
  category : String
  min_required : Int
  example_skills : List String
  requirement_level : ReqLevel
  source : SkillSource
deriving DecidableEq

/-- Tagged union `Requirement = SkillRequirement | CategoryRequirement`. -/
inductive Requirement
  | skill (r : SkillRequirement)
  | category (r : CategoryRequirement)
deriving DecidableEq

/-- The `requirement_level` attribute of either requirement shape. -/
def Requirement.requirement_level : Requirement → ReqLevel
  | .skill r => r.requirement_level
  | .category r => r.requirement_level

/-- `JobMetadata`. -/
structure JobMetadata where
  primary_domain : String
  seniority_level : SeniorityLevel
deriving DecidableEq

/-- `JobSkillProfile`. -/
structure JobSkillProfile where
  role_context : String
  job_metadata : JobMetadata
  requirements : List Requirement
deriving DecidableEq

/-! ## `Employer/PostProcessor.py` -/

/-- Cleanup of one requirement inside `post_process_jd_profile`'s loop:
category requirements only get `min_required` clamped to at least 1;
skill requirements get `min_months` null-defaulted, the methodology rule,
and the hard-tool downgrade, in that order. -/
def clean_requirement : Requirement → Requirement
  | .category r =>
    .category (if r.min_required < 1 then { r with min_required := 1 } else r)
  | .skill r0 =>
    let r1 := if r0.min_months = none then { r0 with min_months := some 0 } else r0
    let r2 := if r1.skill_type_hint = .methodology then
        { r1 with min_months := some 0, expected_evidence := .implicit }
      else r1
    let r3 := if r2.skill_type_hint = .tool ∧ r2.requirement_level = .hard then
        { r2 with requirement_level := .soft, expected_evidence := .project }
      else r2
    .skill r3

/-- Embeds `post_process_jd_profile`: the cleaned requirements are
appended one by one in input order. -/
def post_process_jd_profile (jd : JobSkillProfile) : JobSkillProfile :=
  { jd with requirements := jd.requirements.map clean_requirement }

/-! ## `Employer/MatchingEngine.py`: store model and eligibility gate -/

/-- Row of the `CandidateSkills` table (columns the engine reads). -/
structure CandidateSkillRow where
  CandidateID : Int
  MasterSkillID : Int
  TotalMonths : Int
  MidMonths : Int
  SeniorMonths : Int
  MaxEvidenceStrength : Int
  LastUsedDate : Date
  NormalizationMethod : String
deriving DecidableEq

/-- Row of the `SkillImplications` table. -/
structure SkillImplication where
  FromSkillCode : String
  ToSkillCode : String
deriving DecidableEq

/-- Snapshot of the database tables the matching engine queries. -/
structure Store where
  masterSkills : List MasterSkill
  implications : List SkillImplication
  candidateSkills : List CandidateSkillRow

/-- Seniority thresholds row of the `SENIORITY_THRESHOLDS` table. -/
structure Thresholds where
  min_total_months : Int
  min_mid_months : Int
  min_senior_months : Int

/-- The `SENIORITY_THRESHOLDS` dictionary. -/
def SENIORITY_THRESHOLDS : SeniorityLevel → Thresholds
  | .junior => ⟨6, 0, 0⟩
  | .mid => ⟨18, 12, 0⟩
  | .senior => ⟨36, 24, 12⟩
  | .lead => ⟨60, 36, 24⟩

/-- The `RECENCY_MONTHS_LIMIT` constant. -/
def RECENCY_MONTHS_LIMIT : Int := 36

/-- Embeds `_get_required_evidence_strength`. -/
def get_required_evidence_strength (level : ReqLevel) : Int :=
  if level = .hard then 2 else 1

/-- One breadth step of the recursive CTE in `_resolve_skill_tree`: add
the skills whose parent is already collected. -/
def skillTreeStep (skills : List MasterSkill) (acc : Finset Int) : Finset Int :=
  acc ∪ ((skills.filter (fun m =>
    match m.ParentSkillId with
    | some p => decide (p ∈ acc)
    | none => false)).map (fun m => m.SkillID)).toFinset

/-- Embeds `_resolve_skill_tree`: all `SkillID`s in the subtree rooted at
the given skill code.  The recursive CTE is computed by iterating the
child step once per master-skill row, which reaches the fixed point on
the acyclic taxonomy. -/
def resolve_skill_tree (skills : List MasterSkill) (root_code : String) : Finset Int :=
  (skillTreeStep skills)^[skills.length]
    ((skills.filter (fun m => m.SkillCode = root_code)).map (fun m => m.SkillID)).toFinset

/-- Embeds `_resolve_implied_skills`: ids of skills implied by the code. -/
def resolve_implied_skills (st : Store) (skill_code : String) : Finset Int :=
  ((st.implications.filter (fun si => si.FromSkillCode = skill_code)).flatMap
    (fun si => (st.masterSkills.filter (fun m => m.SkillCode = si.ToSkillCode)).map
      (fun m => m.SkillID))).toFinset

/-- The SQL predicate of the `SkillRequirement` branch of
`get_eligible_candidates`, applied to one `CandidateSkills` row. -/
def skillReqRowOk (acceptable : Finset Int) (min_months required_strength
    min_mid min_senior : Int) (cutoff : Int) (r : CandidateSkillRow) : Bool :=
  decide (r.MasterSkillID ∈ acceptable) &&
    (min_months ≤ r.TotalMonths || required_strength ≤ r.MaxEvidenceStrength) &&
    min_mid ≤ r.MidMonths && min_senior ≤ r.SeniorMonths &&
    cutoff ≤ r.LastUsedDate.ordinal

/-- Candidate set returned by the `SkillRequirement` SQL query. -/
def skillReqCandidates (st : Store) (acceptable : Finset Int) (min_months
    required_strength min_mid min_senior cutoff : Int) : Finset Int :=
  ((st.candidateSkills.filter
    (skillReqRowOk acceptable min_months required_strength min_mid min_senior cutoff)).map
    (fun r => r.CandidateID)).toFinset

/-- The SQL predicate of the `CategoryRequirement` branch (note the
`TotalMonths > 0` disjunct, unlike the skill branch). -/
def categoryRowOk (st : Store) (category : String) (required_strength
    min_mid min_senior cutoff : Int) (r : CandidateSkillRow) : Bool :=
  (st.masterSkills.any (fun m => m.SkillID = r.MasterSkillID && m.Category = category)) &&
    (0 < r.TotalMonths || required_strength ≤ r.MaxEvidenceStrength) &&
    min_mid ≤ r.MidMonths && min_senior ≤ r.SeniorMonths &&
    cutoff ≤ r.LastUsedDate.ordinal

/-- Candidate set returned by the `CategoryRequirement` SQL query: group
the qualifying joined rows by candidate and keep those with at least
`min_required` distinct master skills. -/
def categoryCandidates (st : Store) (category : String) (required_strength
    min_mid min_senior cutoff min_required : Int) : Finset Int :=
  let rows := st.candidateSkills.filter
    (categoryRowOk st category required_strength min_mid min_senior cutoff)
  ((rows.map (fun r => r.CandidateID)).toFinset).filter
    (fun c => min_required ≤
      ((rows.filter (fun r => r.CandidateID = c)).map (fun r => r.MasterSkillID)).dedup.length)

/-- Per-requirement candidate set inside the gate loop: `.ok none` is the
`continue` taken when a `SkillRequirement`'s raw skill resolves to a
falsy `SkillID`; `.error` propagates a matcher exception. -/
def gate_requirement_set (cosF : List ℚ → List ℚ → ℚ) (st : Store)
    (vector_index : List VectorEntry) (embed_fn : Option (String → List ℚ))
    (jd : JobSkillProfile) (th : Thresholds) (cutoff : Int) :
    Requirement → Except String (Option (Finset Int))
  | .skill req => do
    let res ← normalize_and_match_skill cosF req.raw_skill st.masterSkills vector_index
      embed_fn jd.role_context false
    match res.skill_id with
    | none => .ok none
    | some id =>
      if id = 0 then .ok none
      else
        let skill_code := res.skill_code.getD ""
        let acceptable := resolve_skill_tree st.masterSkills skill_code ∪
          resolve_implied_skills st skill_code
        .ok (some (skillReqCandidates st acceptable (req.min_months.getD 0)
          (get_required_evidence_strength req.requirement_level)
          th.min_mid_months th.min_senior_months cutoff))
  | .category req =>
    .ok (some (categoryCandidates st req.category
      (get_required_evidence_strength req.requirement_level)
      th.min_mid_months th.min_senior_months cutoff req.min_required))

/-- The gate loop over hard requirements, carrying the running
intersection (`None` before the first resolved requirement) and
returning the empty set as soon as the intersection becomes empty. -/
def gate_loop (reqSet : Requirement → Except String (Option (Finset Int))) :
    List Requirement → Option (Finset Int) → Except String (Finset Int)
  | [], acc => .ok (acc.getD ∅)
  | req :: rest, acc =>
    match reqSet req with
    | .error e => .error e
    | .ok none => gate_loop reqSet rest acc
    | .ok (some s) =>
      let acc' := match acc with
        | none => s
        | some a => a ∩ s
      if acc' = ∅ then .ok ∅ else gate_loop reqSet rest (some acc')

/-- Embeds `get_eligible_candidates`: filter the hard requirements
(returning the empty set when there are none), compute the seniority
thresholds and the recency cutoff `today - 36 * 30 days`, and run the
intersection loop. -/
def get_eligible_candidates (cosF : List ℚ → List ℚ → ℚ) (st : Store)
    (vector_index : List VectorEntry) (embed_fn : Option (String → List ℚ))
    (today : Date) (jd : JobSkillProfile) : Except String (Finset Int) :=
  let hard := jd.requirements.filter (fun r => r.requirement_level = .hard)
  if hard.isEmpty then .ok ∅
  else
    let th := SENIORITY_THRESHOLDS jd.job_metadata.seniority_level
    let cutoff := today.ordinal - RECENCY_MONTHS_LIMIT * 30
    gate_loop (gate_requirement_set cosF st vector_index embed_fn jd th cutoff) hard none

/-! ## `Shared/Schema/Dto.py` and `Candidate/postprocessor.py`: aggregation

In `Dto.py`, `confidence_sources = []` (and `normalization_methods = []`)
carry no type annotation, so the dataclass machinery ignores them and
they are *class attributes*: a single list object shared by every
`SkillMetrics` instance in the process.  Reading
`instance.confidence_sources` falls back to that class attribute (no
instance ever assigns it, `append` mutates it in place), so the model
keeps one `classConfidenceSources` list in the aggregation state instead
of a per-instance field. -/

/-- Per-instance fields of the `SkillMetrics` dataclass with their
defaults. -/
structure SkillMetrics where
  junior_months : Int := 0
  mid_months : Int := 0
  senior_months : Int := 0
  first_used : Option Date := none
  last_used : Option Date := none
  evidence_score : ℚ := 0
  total_months : Int := 0
  confidence_scores : List ℚ := []
  match_confidence : ℚ := 0
  evidence_sources : List String := []
  max_evidence_strength : Int := 1
  normalization_confidence : ℚ := 0
  has_presence : Bool := false

/-- State of one `sync_profile_to_master` run: the
`defaultdict(SkillMetrics)` (a total function plus its key set in
insertion order) and the class-level `confidence_sources` list shared by
all `SkillMetrics` instances. -/
structure AggState where
  metrics : String → SkillMetrics
  keys : List String
  classConfidenceSources : List String

/-- The empty aggregation state at the start of a process. -/
def AggState.init : AggState :=
  ⟨fun _ => {}, [], []⟩

/-- Reading `confidence_sources` on the accumulator of a given skill
code: no instance ever sets the attribute, so Python attribute lookup
yields the class-level list, whatever the code is. -/
def observed_confidence_sources (st : AggState) (skill_code : String) : List String :=
  let _ := st.metrics skill_code
  st.classConfidenceSources

/-- Update the accumulator of one skill code in the default dictionary,
recording the key on first access. -/
def AggState.update (st : AggState) (code : String) (f : SkillMetrics → SkillMetrics) :
    AggState :=
  { st with
    metrics := fun c => if c = code then f (st.metrics c) else st.metrics c,
    keys := if st.keys.contains code then st.keys else st.keys ++ [code] }

/-- Seniority band inferred from a role title. -/
inductive Band
  | junior
  | mid
  | senior
deriving DecidableEq

/-- Embeds `infer_level_from_title`. -/
def infer_level_from_title (title : String) : Band :=
  let t := pyLower title
  if strContains t "intern" || strContains t "trainee" then .junior
  else if strContains t "junior" || strContains t "associate" then .junior
  else if strContains t "senior" || strContains t "lead" || strContains t "principal" then .senior
  else .mid

/-- The `SOURCE_EVIDENCE_WEIGHT` dictionary; `none` models a `KeyError`. -/
def SOURCE_EVIDENCE_WEIGHT (source : String) : Option ℚ :=
  if source = "skills_section" then some 1
  else if source = "technology_list" then some 0.9
  else if source = "responsibility" then some 0.7
  else if source = "implicit" then some 0
  else none

/-- The `EVIDENCE_STRENGTH` dictionary; `none` models a `KeyError`.  Note
that `technology_list` and `implicit` are *not* keys. -/
def EVIDENCE_STRENGTH (source : String) : Option Int :=
  if source = "responsibility" then some 3
  else if source = "role_title" then some 2
  else if source = "skills_section" then some 1
  else none

/-- The `ROLE_TITLE_SKILL_MAP` dictionary in insertion order. -/
def ROLE_TITLE_SKILL_MAP : List (String × List String) :=
  [("dot net developer", ["framework_dotnet"]),
   ("java developer", ["language_java"]),
   ("python developer", ["language_python"]),
   ("frontend developer", ["web_html", "web_css", "language_javascript"]),
   ("backend developer", [])]

/-- One skill mention handed to the aggregator. -/
structure Mention where
  raw_name : String
  source : String
  confidence : ℚ
  context : String

/-- Python `set.add`: the set is modelled as a deduplicated list
(membership, cardinality and folds agree; iteration order is irrelevant
to every use in the source). -/
def setAdd (l : List String) (x : String) : List String :=
  if l.contains x then l else l ++ [x]

/-- Python `max` over the mapped evidence strengths of a source set; a
missing dictionary key raises, and the source guarantees the set is
non-empty when this runs. -/
def maxStrength (sources : List String) : Except String Int :=
  match sources.mapM EVIDENCE_STRENGTH with
  | none => .error "KeyError: EVIDENCE_STRENGTH"
  | some [] => .error "ValueError: max of empty sequence"
  | some (v :: vs) => .ok (vs.foldl max v)

/-- Body of the mention loop in `process_extracted_skills` for a single
mention: resolve it, drop it if the skill code is falsy, otherwise update
the accumulator (band months, first/last used, evidence score and
sources, presence, maximal evidence strength, blended confidence) and
append the method to the shared class-level `confidence_sources`. -/
def process_one_mention (cosF : List ℚ → List ℚ → ℚ) (master_skills : List MasterSkill)
    (vector_index : List VectorEntry) (embed_fn : Option (String → List ℚ))
    (level : Band) (months : Int) (start_dt end_dt : Date) (st : AggState)
    (mention : Mention) : Except String AggState := do
  let res ← normalize_and_match_skill cosF mention.raw_name master_skills vector_index
    embed_fn mention.context false
  match res.skill_code with
  | none => .ok st
  | some code =>
    if code = "" then .ok st
    else do
      let weight ← match SOURCE_EVIDENCE_WEIGHT mention.source with
        | none => Except.error "KeyError: SOURCE_EVIDENCE_WEIGHT"
        | some w => Except.ok w
      let acc0 := st.metrics code
      let sources' := setAdd acc0.evidence_sources mention.source
      let strength ← maxStrength sources'
      let blended := (0.6 * mention.confidence + 0.4 * res.confidence) * weight
      let st := st.update code (fun acc =>
        { acc with
          junior_months := acc.junior_months + (if level = .junior then months else 0),
          mid_months := acc.mid_months + (if level = .mid then months else 0),
          senior_months := acc.senior_months + (if level = .senior then months else 0),
          first_used := some (match acc.first_used with
            | none => start_dt
            | some f => Date.minD f start_dt),
          last_used := some (match acc.last_used with
            | none => end_dt
            | some l => Date.maxD l end_dt),
          evidence_score := acc.evidence_score + weight,
          evidence_sources := setAdd acc.evidence_sources mention.source,
          has_presence := acc.has_presence || mention.source = "skills_section",
          max_evidence_strength := strength,
          confidence_scores := acc.confidence_scores ++ [blended] })
      .ok { st with classConfidenceSources := st.classConfidenceSources ++ [res.method] }

/-- The role-title credit taken before the mention loop: for every map
key occurring in the role title, flip `has_presence` and add `role_title`
to the evidence sources of the mapped skills. -/
def role_title_credit (role_title : Option String) (st : AggState) : AggState :=
  match role_title with
  | none => st
  | some title =>
    if title = "" then st
    else
      ROLE_TITLE_SKILL_MAP.foldl (fun st kv =>
        if strContains title kv.1 then
          kv.2.foldl (fun st code =>
            st.update code (fun acc =>
              { acc with
                has_presence := true,
                evidence_sources := setAdd acc.evidence_sources "role_title" }))
            st
        else st) st

/-- Embeds `process_extracted_skills`: role-title credit, then the
mention loop (left to right, stopping at the first raised exception). -/
def process_extracted_skills (cosF : List ℚ → List ℚ → ℚ)
    (master_skills : List MasterSkill) (vector_index : List VectorEntry)
    (embed_fn : Option (String → List ℚ)) (st : AggState) (level : Band)
    (months : Int) (start_dt end_dt : Date) (role_title : Option String)
    (skill_mentions : List Mention) : Except String AggState :=
  (skill_mentions.foldlM
    (process_one_mention cosF master_skills vector_index embed_fn level months start_dt end_dt)
    (role_title_credit role_title st))

/-- The per-accumulator finalization loop of `sync_profile_to_master`:
`total_months` becomes the band sum and `match_confidence` the mean of
the confidence scores (0 when there are none). -/
def finalize_metrics (acc : SkillMetrics) : SkillMetrics :=
  { acc with
    total_months := acc.junior_months + acc.mid_months + acc.senior_months,
    match_confidence :=
      if acc.confidence_scores ≠ [] then
        acc.confidence_scores.sum / acc.confidence_scores.length
      else 0 }

/-! ## `Employer/MatchingEngine.py`: scoring and ranking

Python float arithmetic is idealized as exact arithmetic: `ℚ` wherever
the source computes rational values, `ℝ` where `math.log` enters
(`exp_factor` and the running total).  Multiplication is written in the
source's order up to associativity/commutativity of the idealized
field. -/

/-- Round-half-to-even on `ℝ` (Python `round`). -/
noncomputable def roundHalfEvenR (x : ℝ) : Int :=
  let f := ⌊x⌋
  if x - f < 1/2 then f
  else if 1/2 < x - f then f + 1
  else if Even f then f else f + 1

/-- Python `round(x, n)` on `ℝ`. -/
noncomputable def pyRoundR (n : Nat) (x : ℝ) : ℝ :=
  (roundHalfEvenR (x * 10 ^ n) : ℝ) / 10 ^ n

/-- Lookup in a dictionary built by a Python dict comprehension over SQL
rows: a later row with the same key overwrites an earlier one, and a
missing key yields the supplied default (`dict.get(key, default)`). -/
def dictGetQ (rows : List (String × ℚ)) (key : String) (dflt : ℚ) : ℚ :=
  match rows.reverse.find? (fun p => p.1 = key) with
  | some p => p.2
  | none => dflt

/-- The `jd_weight` of a requirement: 1.0 for hard, 0.4 for soft. -/
def jd_weight (r : Requirement) : ℚ :=
  if r.requirement_level = .hard then 1 else 0.4

/-- The `skill_weight` of a requirement: the role weight table entry for
its skill-type hint (`framework` for category requirements, via the
`getattr` default), falling back to 1.0.  Both
`calculate_max_possible_score` and `_score_candidate` use exactly this
lookup. -/
def skill_weight (weights : List (String × ℚ)) : Requirement → ℚ
  | .skill s => dictGetQ weights s.skill_type_hint.value 1
  | .category _ => dictGetQ weights "framework" 1

/-- The `composite_weight` of a requirement. -/
def composite_weight (weights : List (String × ℚ)) (r : Requirement) : ℚ :=
  jd_weight r * skill_weight weights r

/-- The un-rounded sum of composite weights over the requirements (this
is what the specification calls `max_possible_score`). -/
def sum_composite_weights (weights : List (String × ℚ)) (reqs : List Requirement) : ℚ :=
  (reqs.map (composite_weight weights)).sum

/-- Embeds `calculate_max_possible_score`: the accumulated composite
weights, rounded to 4 decimal places on return. -/
def calculate_max_possible_score (weights : List (String × ℚ)) (jd : JobSkillProfile) : ℚ :=
  pyRoundQ 4 (sum_composite_weights weights jd.requirements)

/-- Row of the per-candidate `CandidateSkills ⋈ MasterSkills` query in
`_score_candidate` (the unused `EvidenceSources` column is omitted). -/
structure ScoreRow where
  TotalMonths : Int
  LastUsedDate : Date
  MaxEvidenceStrength : Int
  NormalizationMethod : String
  SkillCode : String
  SkillType : String
  Category : String
deriving DecidableEq

/-- The join loading one candidate's skills with their master rows. -/
def candidate_score_rows (st : Store) (cid : Int) : List ScoreRow :=
  (st.candidateSkills.filter (fun r => r.CandidateID = cid)).flatMap (fun r =>
    (st.masterSkills.filter (fun m => m.SkillID = r.MasterSkillID)).map (fun m =>
      ⟨r.TotalMonths, r.LastUsedDate, r.MaxEvidenceStrength, r.NormalizationMethod,
        m.SkillCode, m.SkillType, m.Category⟩))

/-- The `by_skill` dictionary (`{r["SkillCode"]: r for r in rows}`): the
last row with a given code wins; `dict.get(None)` yields `None`. -/
def by_skill (rows : List ScoreRow) : Option String → Option ScoreRow
  | none => none
  | some code => rows.reverse.find? (fun r => r.SkillCode = code)

/-- The `by_category` lists (`setdefault(...).append(r)`), in row order. -/
def by_category (rows : List ScoreRow) (category : String) : List ScoreRow :=
  rows.filter (fun r => r.Category = category)

/-- Python `max(matches, key = months/strength pair)`: the first row
attaining the lexicographically greatest key (later rows replace the
current best only when strictly greater). -/
def max_by_months_strength (x : ScoreRow) (xs : List ScoreRow) : ScoreRow :=
  xs.foldl (fun best r =>
    if best.TotalMonths < r.TotalMonths ∨
        (best.TotalMonths = r.TotalMonths ∧ best.MaxEvidenceStrength < r.MaxEvidenceStrength)
    then r else best) x

/-- The `exp_factor`: `min(1, log(1 + total_months / max(min_months, 1)))`. -/
noncomputable def exp_factor (total_months min_months : Int) : ℝ :=
  min 1 (Real.log (1 + (total_months : ℝ) / ((max min_months 1 : Int) : ℝ)))

/-- The `recency_factor` ladder over `months_since = days / 30`. -/
def recency_factor (days_since : Int) : ℚ :=
  let months_since : ℚ := (days_since : ℚ) / 30
  if months_since ≤ 12 then 1
  else if months_since ≤ 36 then 0.8
  else if months_since ≤ 60 then 0.6
  else 0.3

/-- The `evidence_factor`: `min(strength / 3, 1)`. -/
def evidence_factor (strength : Int) : ℚ :=
  min ((strength : ℚ) / 3) 1

/-- The `norm_penalty`: 0.85 for vector-normalized skills. -/
def norm_penalty (method : String) : ℚ :=
  if method = "vector" then 0.85 else 1

/-- The engine's `current_date` field, set in `__init__` to the fixed
baseline `datetime(2018, 1, 9)` and used only by the competency score. -/
def engine_current_date : Date := ⟨2018, 1, 9⟩

/-- Result dictionary of `calculate_competency_score`. -/
structure CompetencyScore where
  depth : ℚ
  recency_score : ℚ
  competency_score : ℚ
  final_score : ℚ

/-- Embeds `calculate_competency_score` (pure `ℚ` arithmetic; the month
gap is taken against `engine_current_date`). -/
def calculate_competency_score (months : Int) (last_used : Date) (weight : ℚ) :
    CompetencyScore :=
  let depth : ℚ := min 1 ((months : ℚ) / 36)
  let gap := (engine_current_date.year - last_used.year) * 12 +
    (engine_current_date.month - last_used.month)
  let recency : ℚ := if gap < 12 then 1 else if gap < 48 then 0.6 else 0.25
  ⟨depth, recency, depth * recency, depth * recency * weight⟩

/-- One entry of the `breakdown` list built by `_score_candidate`. -/
structure BreakdownItem where
  weight : ℚ
  skill : String
  type : String
  matched : Bool
  months : Int
  last_used_date : Option Date
  score : ℚ
  recency_score : ℚ
  competency_score : ℚ
  match_type : String
  reason : String

/-- The contribution and breakdown entry of one requirement inside
`_score_candidate`'s loop. -/
noncomputable def score_requirement (cosF : List ℚ → List ℚ → ℚ)
    (master_skills : List MasterSkill) (vector_index : List VectorEntry)
    (embed_fn : Option (String → List ℚ)) (today : Date) (role_context : String)
    (weights : List (String × ℚ)) (rows : List ScoreRow) (req : Requirement) :
    Except String (ℝ × BreakdownItem) :=
  let jw := jd_weight req
  let sw := skill_weight weights req
  match req with
  | .skill sreq =>
    match normalize_and_match_skill cosF sreq.raw_skill master_skills vector_index
      embed_fn role_context false with
    | .error e => .error e
    | .ok res =>
    match by_skill rows res.skill_code with
    | none =>
      .ok (0, ⟨jw * sw, sreq.raw_skill, "Skill", false, 0, none, 0, 0, 0, "Unmatched",
        "Skill not present on candidate profile"⟩)
    | some row =>
      let ef := exp_factor row.TotalMonths (sreq.min_months.getD 0)
      let rf := recency_factor (today.ordinal - row.LastUsedDate.ordinal)
      let vf := evidence_factor row.MaxEvidenceStrength
      let pen := norm_penalty row.NormalizationMethod
      let final : ℝ := ((jw * sw : ℚ) : ℝ) * ef * (rf : ℝ) * (vf : ℝ) * (pen : ℝ)
      let cscore := calculate_competency_score row.TotalMonths row.LastUsedDate (jw * sw)
      .ok (final, ⟨jw * sw, sreq.raw_skill, "Skill", true, row.TotalMonths,
        some row.LastUsedDate, pyRoundQ 2 cscore.final_score, pyRoundQ 1 (rf * 100),
        pyRoundQ 1 cscore.competency_score,
        (if 1 ≤ vf then "Verified" else "Inferred"),
        "Matched via " ++ (res.skill_code.getD "")⟩)
  | .category creq =>
    match by_category rows creq.category with
    | [] =>
      .ok (0, ⟨jw * sw, creq.category, "Category", false, 0, none, 0, 0, 0, "Unmatched",
        "No skills in required category"⟩)
    | m :: ms =>
      let best := max_by_months_strength m ms
      let ef : ℝ := min 1 (Real.log (1 + (best.TotalMonths : ℝ)))
      let rf := recency_factor (today.ordinal - best.LastUsedDate.ordinal)
      let vf := evidence_factor best.MaxEvidenceStrength
      let pen := norm_penalty best.NormalizationMethod
      let final : ℝ := ((jw * sw : ℚ) : ℝ) * ef * (rf : ℝ) * (vf : ℝ) * (pen : ℝ)
      let cscore := calculate_competency_score best.TotalMonths best.LastUsedDate (jw * sw)
      .ok (final, ⟨jw * sw, creq.category, "Category", true, best.TotalMonths,
        some best.LastUsedDate, cscore.final_score, pyRoundQ 1 (rf * 100),
        pyRoundQ 0 (if cscore.competency_score < 1 then cscore.competency_score * 100 else 100),
        (if 1 ≤ vf then "Verified" else "Inferred"),
        "Matched via " ++ best.SkillCode ++ " (" ++ creq.category ++ ")"⟩)

/-- The requirement loop of `_score_candidate`: contributions are summed
and breakdown entries appended in requirement order. -/
noncomputable def score_requirements (cosF : List ℚ → List ℚ → ℚ)
    (master_skills : List MasterSkill) (vector_index : List VectorEntry)
    (embed_fn : Option (String → List ℚ)) (today : Date) (role_context : String)
    (weights : List (String × ℚ)) (rows : List ScoreRow) :
    List Requirement → Except String (ℝ × List BreakdownItem)
  | [] => .ok (0, [])
  | req :: rest =>
    match score_requirement cosF master_skills vector_index embed_fn today
      role_context weights rows req with
    | .error e => .error e
    | .ok (c, item) =>
      match score_requirements cosF master_skills vector_index embed_fn today
        role_context weights rows rest with
      | .error e => .error e
      | .ok (t, items) => .ok (c + t, item :: items)

/-- Embeds `_score_candidate`: load the candidate's joined skill rows,
run the requirement loop, normalize the total by `max_score` (0 when the
maximum is falsy) and round to 4 decimal places. -/
noncomputable def score_candidate (cosF : List ℚ → List ℚ → ℚ) (st : Store)
    (vector_index : List VectorEntry) (embed_fn : Option (String → List ℚ))
    (today : Date) (jd : JobSkillProfile) (weights : List (String × ℚ))
    (cid : Int) (max_score : ℚ) : Except String (ℝ × List BreakdownItem) :=
  match score_requirements cosF st.masterSkills vector_index embed_fn today
    jd.role_context weights (candidate_score_rows st cid) jd.requirements with
  | .error e => .error e
  | .ok (total, bd) =>
    .ok (pyRoundR 4 ((if max_score = 0 then 0 else total / ((max_score : ℚ) : ℝ)) * 100), bd)

/-- Projection used to state score facts without destructing the
`Except`: the score of an `ok` outcome, `-1` for an exception. -/
noncomputable def scoreOf (e : Except String (ℝ × List BreakdownItem)) : ℝ :=
  match e with
  | .ok (s, _) => s
  | .error _ => -1

/-! ## `rank_candidates` -/

/-- Entry of the serialized `skill_breakdown` in the ranked output. -/
structure SkillBreakdownOut where
  skill_name : String
  match_type : String
  type : String
  last_used_date : Option String
  weight : ℚ
  experience_months : Int
  recency_score : ℚ
  competency_score : ℚ
  contribution_to_total : ℚ

/-- One element of the ranked `results` list. -/
structure RankedCandidate where
  name : String
  candidate_id : Int
  score : ℝ
  matches_out : List String
  confidence : String
  skill_breakdown : List SkillBreakdownOut
  unmatched_skills : List String
  total_jd_skills : Int
  matched_skill_count : Int
  unmatched_skill_count : Int

/-- Return value of `rank_candidates`. -/
structure RankOutput where
  results : List RankedCandidate
  role_context : String

/-- Python `"%02d"`-style padding for `strftime("%m-%d-%Y")`. -/
def pad2 (n : Int) : String :=
  (if n < 10 then "0" else "") ++ toString n

/-- The `strftime("%m-%d-%Y")` rendering of a date. -/
def strftimeMDY (d : Date) : String :=
  pad2 d.month ++ "-" ++ pad2 d.day ++ "-" ++ toString d.year

/-- Assembly of one candidate's entry in `rank_candidates`'s loop. -/
noncomputable def build_ranked_entry (names : Int → String) (jd : JobSkillProfile)
    (max_score : ℚ) (cid : Int) (score : ℝ) (bd : List BreakdownItem) : RankedCandidate :=
  { name := names cid
    candidate_id := cid
    score := pyRoundR 4 score
    matches_out := bd.map (fun itm =>
      itm.skill ++ " " ++
        (if strContains itm.reason "explicitly" then "(verified)" else "(inferred)"))
    confidence := "Strong Match"
    skill_breakdown := bd.map (fun itm =>
      { skill_name := itm.skill
        match_type := itm.match_type
        type := itm.type
        last_used_date := itm.last_used_date.map strftimeMDY
        weight := itm.weight
        experience_months := itm.months
        recency_score := itm.recency_score
        competency_score :=
          if (1 : ℚ) < itm.competency_score then (100 : ℚ) else itm.competency_score * 100
        contribution_to_total := if max_score = 0 then 0 else itm.score * 100 / max_score })
    unmatched_skills := []
    total_jd_skills := jd.requirements.length
    matched_skill_count := bd.length
    unmatched_skill_count := 0 }

/-- Insertion step of a stable descending sort on the rounded score: the
inserted element passes exactly the entries with a strictly greater
score, so equal scores keep their original relative order — the
behaviour of Python's stable `list.sort(key=score, reverse=True)`. -/
noncomputable def insert_by_score (x : RankedCandidate) :
    List RankedCandidate → List RankedCandidate
  | [] => [x]
  | y :: ys => if y.score ≤ x.score then x :: y :: ys else y :: insert_by_score x ys

/-- Stable descending sort on the score (see `insert_by_score`). -/
noncomputable def sort_by_score_desc (l : List RankedCandidate) : List RankedCandidate :=
  l.foldr insert_by_score []

/-- Embeds `rank_candidates` from the post-processed JD profile on: the
eligibility gate, the per-candidate scoring loop, the stable sort on the
score, and the `[:limit]` truncation.  The LLM JD parsing step is
upstream of this model; `names` stands for the `Candidates` name lookup
and `iterOrder` for the iteration order of the Python set of eligible
ids. -/
noncomputable def rank_candidates (cosF : List ℚ → List ℚ → ℚ) (st : Store)
    (vector_index : List VectorEntry) (embed_fn : Option (String → List ℚ))
    (today : Date) (names : Int → String) (role_weights : List (String × ℚ))
    (iterOrder : Finset Int → List Int) (jd : JobSkillProfile) (limit : Nat) :
    Except String RankOutput := do
  let eligible ← get_eligible_candidates cosF st vector_index embed_fn today jd
  if eligible = ∅ then .ok ⟨[], jd.role_context⟩
  else do
    let max_score := calculate_max_possible_score role_weights jd
    let entries ← (iterOrder eligible).mapM (fun cid => do
      let (score, bd) ← score_candidate cosF st vector_index embed_fn today jd
        role_weights cid max_score
      pure (build_ranked_entry names jd max_score cid score bd))
    .ok ⟨(sort_by_score_desc entries).take limit, jd.role_context⟩

/-- The per-requirement set function the gate runs with, with the
thresholds and recency cutoff it derives from the profile and the
current date. -/
def gate_req_fn (cosF : List ℚ → List ℚ → ℚ) (st : Store)
    (vector_index : List VectorEntry) (embed_fn : Option (String → List ℚ))
    (today : Date) (jd : JobSkillProfile) :
    Requirement → Except String (Option (Finset Int)) :=
  gate_requirement_set cosF st vector_index embed_fn jd
    (SENIORITY_THRESHOLDS jd.job_metadata.seniority_level)
    (today.ordinal - RECENCY_MONTHS_LIMIT * 30)

/-- Whether the gate loop skips a requirement (`continue` on an
unresolved raw skill): its per-requirement outcome is `.ok none`. -/
def resolves_to_none (f : Requirement → Except String (Option (Finset Int)))
    (r : Requirement) : Bool :=
  match f r with
  | .ok none => true
  | _ => false

/-- A candidate-skill row giving a requirement its full contribution:
maximal evidence strength, at most 360 days (12 months of 30 days) since
last use, a non-vector normalization method, and enough months for the
logarithmic experience factor to saturate
(`total ≥ (e - 1) · max(min_months, 1)`). -/
def PerfectRow (today : Date) (min_months : Int) (r : ScoreRow) : Prop :=
  3 ≤ r.MaxEvidenceStrength ∧
  today.ordinal - r.LastUsedDate.ordinal ≤ 360 ∧
  r.NormalizationMethod ≠ "vector" ∧
  (Real.exp 1 - 1) * ((max min_months 1 : Int) : ℝ) ≤ (r.TotalMonths : ℝ)

/-- A requirement matched with a perfect row: a skill requirement whose
raw skill resolves and whose resolved code finds a perfect row, or a
category requirement whose best row is perfect. -/
def PerfectReq (cosF : List ℚ → List ℚ → ℚ) (master : List MasterSkill)
    (vi : List VectorEntry) (ef : Option (String → List ℚ)) (today : Date)
    (role_context : String) (rows : List ScoreRow) : Requirement → Prop
  | .skill sreq => ∃ res : MatchResult,
      normalize_and_match_skill cosF sreq.raw_skill master vi ef role_context false =
        .ok res ∧
      ∃ row, by_skill rows res.skill_code = some row ∧
        PerfectRow today (sreq.min_months.getD 0) row
  | .category creq =>
      match by_category rows creq.category with
      | [] => False
      | m :: ms => PerfectRow today 1 (max_by_months_strength m ms)

/-- Projection of a ranking outcome (empty on error), used to state
facts about a successful run without destructing the `Except`. -/
noncomputable def rankResultsOf (e : Except String RankOutput) : List RankedCandidate :=
  match e with
  | .ok out => out.results
  | .error _ => []

/-- Total months recorded for a candidate in the store (the sum over the
candidate's skill rows; fixtures use one row per candidate). -/
def storeTotalMonths (st : Store) (cid : Int) : Int :=
  ((st.candidateSkills.filter (fun r => r.CandidateID = cid)).map
    (fun r => r.TotalMonths)).sum

/-- The ordering the specification claims for the ranked list, weakened
to its first two keys: score descending, ties by the candidate's total
months descending.  (The full claimed order refines ties further by
`last_used`, so any violation of this predicate violates the claim.) -/
def ScoreMonthsOrdered (st : Store) (l : List RankedCandidate) : Prop :=
  l.Pairwise (fun a b => b.score < a.score ∨
    (a.score = b.score ∧ storeTotalMonths st b.candidate_id ≤ storeTotalMonths st a.candidate_id))

/-! ## Concrete fixtures used by witnesses and counterexamples -/

/-- A one-requirement raw JD profile with a hard `tool` requirement and
`min_months = null`. -/
def jdFixtureC8 : JobSkillProfile :=
  ⟨"ctx", ⟨"Web", .mid⟩,
    [.skill ⟨"Docker", .explicit, .hard, .tool, none, .resume_skill⟩]⟩

/-- A master skill row for Java with no aliases, tokens or rules. -/
def masterJava : MasterSkill :=
  ⟨1, "Java", "language_java", "programming", "Programming Language", none, none, none, none⟩

/-- A store with the Java skill and one fresh, strongly evidenced
candidate row. -/
def storeFixture : Store :=
  ⟨[masterJava], [], [⟨1, 1, 24, 0, 0, 3, ⟨2025, 6, 1⟩, "exact"⟩]⟩

/-- A resolvable hard requirement on Java. -/
def reqJava : Requirement :=
  .skill ⟨"Java", .explicit, .hard, .programming, some 0, .resume_skill⟩

/-- A hard requirement whose raw skill matches no master skill. -/
def reqQuux : Requirement :=
  .skill ⟨"Quux", .explicit, .hard, .other, some 0, .resume_skill⟩

/-- JD fixture with one resolvable and one unresolvable hard
requirement. -/
def jdFixtureC4 : JobSkillProfile :=
  ⟨"backend role", ⟨"Web", .junior⟩, [reqJava, reqQuux]⟩

/-- The reference current date used in concrete gate evaluations. -/
def todayFixture : Date := ⟨2026, 1, 1⟩

/-- A Java master skill carrying the `block_if_contains = ["javascript"]`
disambiguation rule. -/
def masterJavaBlocked : MasterSkill :=
  ⟨7, "Java", "language_java", "programming", "Programming Language", none, none, none,
    some (some ⟨["javascript"], []⟩)⟩

/-- The default `ref_date` of `calculate_duration`
(`"2026-01-01"`), which `build_professional_profile` always uses for
durations because its call site passes no reference date. -/
def DEFAULT_REF_DATE : Date := ⟨2026, 1, 1⟩

/-- A concrete stand-in for `dateutil.parser.parse` defined on the date
strings the duration fixtures use. -/
def parseFixture : String → Option Date := fun str =>
  if str = "2022-01-31" then some ⟨2022, 1, 31⟩
  else if str = "2022-03-01" then some ⟨2022, 3, 1⟩
  else if str = "2022-01-01" then some ⟨2022, 1, 1⟩
  else if str = "2024-01-01" then some ⟨2024, 1, 1⟩
  else none

/-- A trivial stand-in cosine function for fixtures that never reach the
vector tier. -/
def cosZero : List ℚ → List ℚ → ℚ := fun _ _ => 0

/-- Stand-in cosine returning 1 on identical vectors (the true cosine of
two equal non-zero vectors) and 0 otherwise. -/
def cosSame : List ℚ → List ℚ → ℚ := fun a b => if a = b then 1 else 0

/-- A Python master skill row with no aliases, tokens or rules. -/
def masterPython : MasterSkill :=
  ⟨2, "Python", "language_python", "programming", "Programming Language",
    none, none, none, none⟩

/-- Projection of an aggregation outcome (initial state on error), used
to state facts about successful runs without destructing the `Except`. -/
def aggStateOf (e : Except String AggState) : AggState :=
  match e with
  | .ok st => st
  | .error _ => AggState.init

/-- One-requirement JD profile used by the C1 witness (hard Java
requirement with `min_months = 0`). -/
def jdC1w : JobSkillProfile := ⟨"ctx", ⟨"Web", .junior⟩, [reqJava]⟩

/-- A hard Java requirement with `min_months = 24`. -/
def reqJavaMin24 : Requirement :=
  .skill ⟨"Java", .explicit, .hard, .programming, some 24, .resume_skill⟩

/-- One-requirement JD profile used by the C1 counterexample: the
candidate row meets `min_months` exactly. -/
def jdC1c : JobSkillProfile := ⟨"ctx", ⟨"Web", .junior⟩, [reqJavaMin24]⟩

/-- The joined score row of `storeFixture`'s single candidate skill. -/
def rowC1 : ScoreRow :=
  ⟨24, ⟨2025, 6, 1⟩, 3, "exact", "language_java", "programming", "Programming Language"⟩

/-- Candidate-1 joined score row of `storeC9` (2 total months). -/
def rowC9a : ScoreRow :=
  ⟨2, ⟨2025, 6, 1⟩, 3, "exact", "language_java", "programming", "Programming Language"⟩

/-- Candidate-2 joined score row of `storeC9` (100 total months). -/
def rowC9b : ScoreRow :=
  ⟨100, ⟨2025, 6, 1⟩, 3, "exact", "language_java", "programming", "Programming Language"⟩

/-- Store with two candidates perfect on the Java requirement: candidate
1 with 2 total months, candidate 2 with 100. -/
def storeC9 : Store :=
  ⟨[masterJava], [],
    [⟨1, 1, 2, 0, 0, 3, ⟨2025, 6, 1⟩, "exact"⟩,
     ⟨2, 1, 100, 0, 0, 3, ⟨2025, 6, 1⟩, "exact"⟩]⟩

/-- Constant name lookup for ranking fixtures. -/
def namesFixture : Int → String := fun _ => "c"

/-- Concrete iteration order of the Python set of eligible ids:
candidate 1 first. -/
def iterFixture : Finset Int → List Int := fun _ => [1, 2]

/-! # Theorems -/

/-! ## C8: the JD post-processor -/

/-- C8: for every raw `JobSkillProfile`, `post_process_jd_profile`
preserves the number and order of requirements (adding, removing and
reinterpreting nothing — each output slot comes from the same input
slot and keeps its constructor) and only normalizes fields: a
`CategoryRequirement` has `min_required` clamped to at least 1 and all
other fields unchanged; a `SkillRequirement` keeps its raw skill,
source, level-kind and hint, its `min_months` of `null` becomes 0, a
`methodology` hint forces `min_months = 0` and
`expected_evidence = implicit`, and a `tool` hint combined with a `hard`
level is downgraded to `soft` with `expected_evidence = project`. -/
theorem C8_post_processor_only_normalizes (jd : JobSkillProfile) :
    (post_process_jd_profile jd).requirements.length = jd.requirements.length ∧
    (∀ i : ℕ, ∀ r : Requirement, jd.requirements[i]? = some r →
      (match r with
       | .category c => (post_process_jd_profile jd).requirements[i]? =
           some (.category { c with min_required := max 1 c.min_required })
       | .skill s => ∃ s' : SkillRequirement,
           (post_process_jd_profile jd).requirements[i]? = some (.skill s') ∧
           s'.raw_skill = s.raw_skill ∧
           s'.source = s.source ∧
           s'.skill_type_hint = s.skill_type_hint ∧
           s'.min_months =
             some (if s.skill_type_hint = .methodology then 0 else s.min_months.getD 0) ∧
           s'.requirement_level =
             (if s.skill_type_hint = .tool ∧ s.requirement_level = .hard then .soft
              else s.requirement_level) ∧
           s'.expected_evidence =
             (if s.skill_type_hint = .methodology then .implicit
              else if s.skill_type_hint = .tool ∧ s.requirement_level = .hard then .project
              else s.expected_evidence) : Prop)) := by
  constructor
  · simp [post_process_jd_profile]
  · intro i r hir
    have hmap : (post_process_jd_profile jd).requirements[i]? =
        some (clean_requirement r) := by
      simp [post_process_jd_profile, List.getElem?_map, hir]
    match r with
    | .category c =>
      simp only [hmap, clean_requirement]
      rcases c with ⟨g, cat, mr, ex, lvl, src⟩
      by_cases h : mr < 1
      · simp [h, show max 1 mr = 1 by omega]
      · simp [h, show max 1 mr = mr by omega]
    | .skill s =>
      refine ⟨match (clean_requirement (.skill s)) with
              | .skill s' => s'
              | .category _ => s, ?_⟩
      rcases s with ⟨raw, src, lvl, hint, mm, ev⟩
      cases hint <;> cases lvl <;> cases mm <;>
        simp [hmap, clean_requirement]

/-- Witness for C8 at a concrete profile: a single hard `tool`
requirement with `min_months = null` comes out downgraded to
`soft`/`project` with `min_months = 0` and everything else unchanged. -/
theorem C8_post_processor_only_normalizes_witness :
    (post_process_jd_profile jdFixtureC8).requirements[0]? =
      some (.skill ⟨"Docker", .explicit, .soft, .tool, some 0, .project⟩) := by
  obtain ⟨s', h0, h1, h2, h3, h4, h5, h6⟩ :=
    (C8_post_processor_only_normalizes jdFixtureC8).2 0
      (.skill ⟨"Docker", .explicit, .hard, .tool, none, .resume_skill⟩) rfl
  rcases s' with ⟨a, b, c, d, e, f⟩
  simp only [] at h1 h2 h3 h4 h5 h6
  norm_num at h4 h5 h6
  subst h1 h2 h3 h4 h5 h6
  exact h0

/-! ## C5: soft requirements never filter -/

/-- C5: for every JD profile and fixed store (and matcher environment),
removing all requirements with `requirement_level == soft` leaves the
eligibility gate's output unchanged: the gate filters on hard
requirements only, and dropping the soft ones does not disturb that
list. -/
theorem C5_soft_requirements_never_filter (cosF : List ℚ → List ℚ → ℚ) (st : Store)
    (vector_index : List VectorEntry) (embed_fn : Option (String → List ℚ))
    (today : Date) (jd : JobSkillProfile) :
    get_eligible_candidates cosF st vector_index embed_fn today
      { jd with requirements :=
          jd.requirements.filter (fun r => r.requirement_level ≠ .soft) } =
    get_eligible_candidates cosF st vector_index embed_fn today jd := by
  have hfilter :
      (jd.requirements.filter (fun r => r.requirement_level ≠ .soft)).filter
        (fun r => r.requirement_level = ReqLevel.hard) =
      jd.requirements.filter (fun r => r.requirement_level = ReqLevel.hard) := by
    rw [List.filter_filter]
    congr 1
    funext r
    cases h : r.requirement_level <;> simp [h]
  have hset : gate_requirement_set cosF st vector_index embed_fn
      { jd with requirements :=
          jd.requirements.filter (fun r => r.requirement_level ≠ .soft) } =
      gate_requirement_set cosF st vector_index embed_fn jd := rfl
  unfold get_eligible_candidates
  simp only [hfilter, hset]

/-! ## C4: the eligibility gate is an intersection that skips unresolved
skills -/

/-- Specification of the gate loop from a resolved accumulator: when no
requirement raises, the loop returns exactly the candidates of the
accumulator that lie in every resolved per-requirement set (the early
return on an empty running intersection does not change this value). -/
theorem gate_loop_some_spec (f : Requirement → Except String (Option (Finset Int))) :
    ∀ (l : List Requirement) (a : Finset Int),
    (∀ r ∈ l, ∃ o, f r = .ok o) →
    ∃ S, gate_loop f l (some a) = .ok S ∧
      ∀ c : Int, c ∈ S ↔ (c ∈ a ∧ ∀ r ∈ l, ∀ s, f r = .ok (some s) → c ∈ s) := by
  intro l
  induction l with
  | nil =>
    intro a _
    exact ⟨a, rfl, by simp⟩
  | cons r rest ih =>
    intro a hok
    obtain ⟨o, ho⟩ := hok r (List.mem_cons_self r rest)
    have hokRest : ∀ r' ∈ rest, ∃ o, f r' = .ok o :=
      fun r' h => hok r' (List.mem_cons_of_mem r h)
    match o, ho with
    | none, ho =>
      obtain ⟨S, hS, hmem⟩ := ih a hokRest
      refine ⟨S, by simp [gate_loop, ho, hS], ?_⟩
      intro c
      rw [hmem c]
      constructor
      · rintro ⟨ha, hrest⟩
        refine ⟨ha, ?_⟩
        intro r' hr' s hs
        rcases List.mem_cons.mp hr' with h | h
        · subst h; rw [ho] at hs; exact absurd (Except.ok.inj hs) (by simp)
        · exact hrest r' h s hs
      · rintro ⟨ha, hall⟩
        exact ⟨ha, fun r' h s hs => hall r' (List.mem_cons_of_mem r h) s hs⟩
    | some s, ho =>
      by_cases he : a ∩ s = ∅
      · refine ⟨∅, by simp [gate_loop, ho, he], ?_⟩
        intro c
        simp only [Finset.not_mem_empty, false_iff]
        rintro ⟨ha, hall⟩
        have hcs := hall r (List.mem_cons_self r rest) s ho
        have : c ∈ a ∩ s := Finset.mem_inter.mpr ⟨ha, hcs⟩
        rw [he] at this
        exact absurd this (Finset.not_mem_empty c)
      · obtain ⟨S, hS, hmem⟩ := ih (a ∩ s) hokRest
        refine ⟨S, by simp [gate_loop, ho, he, hS], ?_⟩
        intro c
        rw [hmem c]
        constructor
        · rintro ⟨hin, hrest⟩
          obtain ⟨ha, hs⟩ := Finset.mem_inter.mp hin
          refine ⟨ha, ?_⟩
          intro r' hr' s' hs'
          rcases List.mem_cons.mp hr' with h | h
          · subst h
            rw [ho] at hs'
            have : some s = some s' := Except.ok.inj hs'
            rwa [← Option.some.inj this]
          · exact hrest r' h s' hs'
        · rintro ⟨ha, hall⟩
          refine ⟨Finset.mem_inter.mpr ⟨ha, hall r (List.mem_cons_self r rest) s ho⟩, ?_⟩
          exact fun r' h s' hs' => hall r' (List.mem_cons_of_mem r h) s' hs'

/-- Specification of the gate loop from the initial `None` accumulator,
provided at least one requirement resolves. -/
theorem gate_loop_none_spec (f : Requirement → Except String (Option (Finset Int))) :
    ∀ (l : List Requirement),
    (∀ r ∈ l, ∃ o, f r = .ok o) →
    (∃ r ∈ l, ∃ s, f r = .ok (some s)) →
    ∃ S, gate_loop f l none = .ok S ∧
      ∀ c : Int, c ∈ S ↔ (∀ r ∈ l, ∀ s, f r = .ok (some s) → c ∈ s) := by
  intro l
  induction l with
  | nil =>
    rintro _ ⟨r, hr, _⟩
    exact absurd hr (List.not_mem_nil r)
  | cons r rest ih =>
    intro hok hres
    obtain ⟨o, ho⟩ := hok r (List.mem_cons_self r rest)
    have hokRest : ∀ r' ∈ rest, ∃ o, f r' = .ok o :=
      fun r' h => hok r' (List.mem_cons_of_mem r h)
    match o, ho with
    | none, ho =>
      have hresRest : ∃ r' ∈ rest, ∃ s, f r' = .ok (some s) := by
        obtain ⟨r', hr', s, hs⟩ := hres
        rcases List.mem_cons.mp hr' with h | h
        · subst h; rw [ho] at hs; exact absurd (Except.ok.inj hs) (by simp)
        · exact ⟨r', h, s, hs⟩
      obtain ⟨S, hS, hmem⟩ := ih hokRest hresRest
      refine ⟨S, by simp [gate_loop, ho, hS], ?_⟩
      intro c
      rw [hmem c]
      constructor
      · intro hall r' hr' s hs
        rcases List.mem_cons.mp hr' with h | h
        · subst h; rw [ho] at hs; exact absurd (Except.ok.inj hs) (by simp)
        · exact hall r' h s hs
      · exact fun hall r' h s hs => hall r' (List.mem_cons_of_mem r h) s hs
    | some s, ho =>
      by_cases he : s = ∅
      · refine ⟨∅, by simp [gate_loop, ho, he], ?_⟩
        intro c
        simp only [Finset.not_mem_empty, false_iff]
        intro hall
        have := hall r (List.mem_cons_self r rest) s ho
        rw [he] at this
        exact absurd this (Finset.not_mem_empty c)
      · obtain ⟨S, hS, hmem⟩ := gate_loop_some_spec f rest s hokRest
        refine ⟨S, by simp [gate_loop, ho, he, hS], ?_⟩
        intro c
        rw [hmem c]
        constructor
        · rintro ⟨hcs, hrest⟩
          intro r' hr' s' hs'
          rcases List.mem_cons.mp hr' with h | h
          · subst h
            rw [ho] at hs'
            have : some s = some s' := Except.ok.inj hs'
            rwa [← Option.some.inj this]
          · exact hrest r' h s' hs'
        · intro hall
          exact ⟨hall r (List.mem_cons_self r rest) s ho,
            fun r' h s' hs' => hall r' (List.mem_cons_of_mem r h) s' hs'⟩

/-- Removing the skipped requirements (those whose per-requirement
outcome is the `continue`, `.ok none`) from the loop's input never
changes its result, from any accumulator. -/
theorem gate_loop_skip_invariant (f : Requirement → Except String (Option (Finset Int))) :
    ∀ (l : List Requirement) (acc : Option (Finset Int)),
    gate_loop f (l.filter (fun r => !resolves_to_none f r)) acc = gate_loop f l acc := by
  intro l
  induction l with
  | nil => intro acc; rfl
  | cons r rest ih =>
    intro acc
    cases ho : f r with
    | error e =>
      have hkeep : resolves_to_none f r = false := by
        simp [resolves_to_none, ho]
      simp [gate_loop, List.filter_cons, hkeep, ho]
    | ok o =>
      cases o with
      | none =>
        have hskip : resolves_to_none f r = true := by
          simp [resolves_to_none, ho]
        simp only [List.filter_cons, hskip, Bool.not_true, Bool.false_eq_true, if_false]
        rw [ih acc]
        simp [gate_loop, ho]
      | some s =>
        have hkeep : resolves_to_none f r = false := by
          simp [resolves_to_none, ho]
        simp only [List.filter_cons, hkeep, Bool.not_false, if_pos rfl]
        simp only [gate_loop, ho]
        cases acc with
        | none =>
          by_cases he : s = ∅ <;> simp [he, ih]
        | some a =>
          by_cases he : a ∩ s = ∅ <;> simp [he, ih]

/-- Unfolding of the gate into the loop over hard requirements. -/
theorem get_eligible_candidates_eq (cosF : List ℚ → List ℚ → ℚ) (st : Store)
    (vector_index : List VectorEntry) (embed_fn : Option (String → List ℚ))
    (today : Date) (jd : JobSkillProfile) :
    get_eligible_candidates cosF st vector_index embed_fn today jd =
      if (jd.requirements.filter
          (fun r => r.requirement_level = ReqLevel.hard)).isEmpty = true then
        .ok ∅
      else
        gate_loop (gate_req_fn cosF st vector_index embed_fn today jd)
          (jd.requirements.filter (fun r => r.requirement_level = ReqLevel.hard)) none := rfl

/-- C4: the eligibility gate returns the intersection, over the hard
requirements, of the per-requirement candidate sets (with the empty set
returned as soon as the running intersection empties, which does not
change the value), provided no requirement raises and at least one hard
requirement resolves; and removing from the profile exactly the hard
requirements whose raw skill resolves to no master skill (the skipped
ones) never changes the gate's output, so a skipped requirement excludes
no candidate. -/
theorem C4_gate_is_intersection_skipping_unresolved (cosF : List ℚ → List ℚ → ℚ)
    (st : Store) (vector_index : List VectorEntry)
    (embed_fn : Option (String → List ℚ)) (today : Date) (jd : JobSkillProfile) :
    ((∀ r ∈ jd.requirements.filter (fun r => r.requirement_level = .hard),
        ∃ o, gate_req_fn cosF st vector_index embed_fn today jd r = .ok o) →
     (∃ r ∈ jd.requirements.filter (fun r => r.requirement_level = .hard),
        ∃ s, gate_req_fn cosF st vector_index embed_fn today jd r = .ok (some s)) →
     ∃ S, get_eligible_candidates cosF st vector_index embed_fn today jd = .ok S ∧
       ∀ c : Int, c ∈ S ↔
         (∀ r ∈ jd.requirements.filter (fun r => r.requirement_level = .hard),
           ∀ s, gate_req_fn cosF st vector_index embed_fn today jd r = .ok (some s) →
             c ∈ s)) ∧
    get_eligible_candidates cosF st vector_index embed_fn today
      { jd with requirements := (jd.requirements.filter
          (fun r => !(decide (r.requirement_level = ReqLevel.hard) &&
            resolves_to_none (gate_req_fn cosF st vector_index embed_fn today jd) r))) } =
    get_eligible_candidates cosF st vector_index embed_fn today jd := by
  constructor
  · intro hok hres
    have hne : (jd.requirements.filter
        (fun r => r.requirement_level = ReqLevel.hard)).isEmpty = false := by
      obtain ⟨r, hr, _⟩ := hres
      rcases hnil : jd.requirements.filter
          (fun r => r.requirement_level = ReqLevel.hard) with _ | _
      · rw [hnil] at hr; exact absurd hr (List.not_mem_nil r)
      · rw [hnil]; rfl
    obtain ⟨S, hS, hmem⟩ := gate_loop_none_spec
      (gate_req_fn cosF st vector_index embed_fn today jd)
      (jd.requirements.filter (fun r => r.requirement_level = .hard)) hok hres
    refine ⟨S, ?_, hmem⟩
    rw [get_eligible_candidates_eq, hne]
    simpa using hS
  · have hf : gate_req_fn cosF st vector_index embed_fn today
        { jd with requirements := (jd.requirements.filter
            (fun r => !(decide (r.requirement_level = ReqLevel.hard) &&
              resolves_to_none (gate_req_fn cosF st vector_index embed_fn today jd) r))) } =
        gate_req_fn cosF st vector_index embed_fn today jd := rfl
    have hlists :
        (jd.requirements.filter
          (fun r => !(decide (r.requirement_level = ReqLevel.hard) &&
            resolves_to_none (gate_req_fn cosF st vector_index embed_fn today jd) r))).filter
          (fun r => r.requirement_level = ReqLevel.hard) =
        (jd.requirements.filter (fun r => r.requirement_level = ReqLevel.hard)).filter
          (fun r => !resolves_to_none
            (gate_req_fn cosF st vector_index embed_fn today jd) r) := by
      rw [List.filter_filter, List.filter_filter]
      congr 1
      funext r
      cases h1 : decide (r.requirement_level = ReqLevel.hard) <;>
        cases h2 : resolves_to_none
          (gate_req_fn cosF st vector_index embed_fn today jd) r <;>
        simp [h1, h2]
    rw [get_eligible_candidates_eq, get_eligible_candidates_eq, hf, hlists,
      gate_loop_skip_invariant]
    by_cases hB : (jd.requirements.filter
        (fun r => r.requirement_level = ReqLevel.hard)).isEmpty
    · rw [List.isEmpty_iff.mp hB]
      simp
    · by_cases hA : ((jd.requirements.filter
          (fun r => r.requirement_level = ReqLevel.hard)).filter
          (fun r => !resolves_to_none
            (gate_req_fn cosF st vector_index embed_fn today jd) r)).isEmpty
      · rw [if_pos hA, eq_false_of_ne_true hB, if_neg (by simp),
          ← gate_loop_skip_invariant (gate_req_fn cosF st vector_index embed_fn today jd)
            (jd.requirements.filter (fun r => r.requirement_level = ReqLevel.hard)) none,
          List.isEmpty_iff.mp hA]
        rfl
      · rw [if_neg hA, if_neg hB]

/-- Witness for C4 at a concrete store and profile: one hard requirement
resolves (Java) and one is skipped (Quux). -/
theorem C4_gate_is_intersection_skipping_unresolved_witness :
    ∃ S, get_eligible_candidates cosZero storeFixture [] none todayFixture jdFixtureC4 =
      .ok S ∧
      ∀ c : Int, c ∈ S ↔
        (∀ r ∈ jdFixtureC4.requirements.filter (fun r => r.requirement_level = .hard),
          ∀ s, gate_req_fn cosZero storeFixture [] none todayFixture jdFixtureC4 r =
            .ok (some s) → c ∈ s) := by
  have hfil : jdFixtureC4.requirements.filter
      (fun r => r.requirement_level = ReqLevel.hard) = [reqJava, reqQuux] := rfl
  refine (C4_gate_is_intersection_skipping_unresolved cosZero storeFixture [] none
    todayFixture jdFixtureC4).1 ?_ ?_
  · intro r hr
    rw [hfil] at hr
    simp only [List.mem_cons, List.not_mem_nil, or_false] at hr
    rcases hr with rfl | rfl
    · exact ⟨_, rfl⟩
    · exact ⟨_, rfl⟩
  · exact ⟨reqJava, by rw [hfil]; exact List.mem_cons_self reqJava [reqQuux], _, rfl⟩

/-! ## C2: role duration -/

/-- When the end day-of-month is at least the start day-of-month (and
the end date is calendar-valid), shifting the start by the raw
year/month difference lands exactly on the end's year and month with the
start's day, so dateutil's adjustment loop never fires and the
relativedelta month count is the plain formula. -/
theorem relativedelta_months_of_day_le (s e : Date) (hev : e.Valid)
    (hday : s.day ≤ e.day) :
    relativedelta_months s e = (e.year - s.year) * 12 + (e.month - s.month) := by
  obtain ⟨hm1, hm2, _, hd2⟩ := hev
  have ht : s.monthIndex + ((e.year - s.year) * 12 + (e.month - s.month)) =
      e.year * 12 + (e.month - 1) := by
    unfold Date.monthIndex; ring
  have hy : (e.year * 12 + (e.month - 1)) / 12 = e.year := by omega
  have hm : (e.year * 12 + (e.month - 1)) % 12 + 1 = e.month := by omega
  have hadd : addMonths s ((e.year - s.year) * 12 + (e.month - s.month)) =
      ⟨e.year, e.month, s.day⟩ := by
    simp only [addMonths, ht, hy, hm]
    have : s.day ≤ daysInMonth e.year e.month := le_trans hday hd2
    simp only [Date.mk.injEq, true_and]
    omega
  have hlt : Date.ltB e ⟨e.year, e.month, s.day⟩ = false := by
    simp only [Date.ltB]
    simp only [Bool.or_eq_false_iff, Bool.and_eq_false_iff, decide_eq_false_iff_not]
    omega
  simp only [relativedelta_months, hadd, hlt, Bool.false_eq_true, if_false]

/-- C2 (amended): for a role whose start and end parse, with the end not
a `Present`/`N/A` marker, `verified_duration_months` equals
`(end.year − start.year)·12 + (end.month − start.month)` **provided the
end's day-of-month is at least the start's** (otherwise
`dateutil.relativedelta` borrows a month, see the counterexample); an
end of `Present`/`N/A` resolves to the configured reference date and
obeys the same formula with that date; and an unparseable start or end
yields 0. -/
theorem C2_duration_amended (parse : String → Option Date) (sraw eraw : String)
    (s ref : Date) :
    (∀ e : Date, parse sraw = some s → parse eraw = some e → eraw ≠ "" →
      strContains (pyLower eraw) "present" = false → eraw ≠ "N/A" →
      e.Valid → s.day ≤ e.day →
      calculate_duration parse (some sraw) (some eraw) ref =
        (e.year - s.year) * 12 + (e.month - s.month)) ∧
    (parse sraw = some s →
      (strContains (pyLower eraw) "present" = true ∨ eraw = "N/A") → eraw ≠ "" →
      ref.Valid → s.day ≤ ref.day →
      calculate_duration parse (some sraw) (some eraw) ref =
        (ref.year - s.year) * 12 + (ref.month - s.month)) ∧
    (parse sraw = none →
      calculate_duration parse (some sraw) (some eraw) ref = 0) ∧
    (parse eraw = none → eraw ≠ "" →
      strContains (pyLower eraw) "present" = false → eraw ≠ "N/A" →
      calculate_duration parse (some sraw) (some eraw) ref = 0) := by
  refine ⟨?_, ?_, ?_, ?_⟩
  · intro e hs he hne hnp hna hev hday
    have hcond : (strContains (pyLower eraw) "present" || decide (eraw = "N/A")) = false := by
      simp [hnp, hna]
    simp only [calculate_duration, if_neg hne]
    simp [hs, he, hcond]
    exact relativedelta_months_of_day_le s e hev hday
  · intro hs hp hne hrefv hday
    have hcond : (strContains (pyLower eraw) "present" || decide (eraw = "N/A")) = true := by
      rcases hp with h | h
      · simp [h]
      · simp [h]
    simp only [calculate_duration, if_neg hne]
    simp [hs, hcond]
    exact relativedelta_months_of_day_le s ref hrefv hday
  · intro hs
    simp [calculate_duration, hs]
  · intro he hne hnp hna
    have hcond : (strContains (pyLower eraw) "present" || decide (eraw = "N/A")) = false := by
      simp [hnp, hna]
    simp only [calculate_duration, if_neg hne]
    cases hps : parse sraw with
    | none => simp [hps]
    | some sd => simp [hps, he, hcond]

/-- Counterexample for C2 as stated: start `2022-01-31`, end
`2022-03-01` parse to valid dates, yet the computed duration is 1 month
while the claimed formula gives 2 (relativedelta borrows a month because
the end day-of-month precedes the start day-of-month). -/
theorem C2_duration_counterexample :
    calculate_duration parseFixture (some "2022-01-31") (some "2022-03-01")
      DEFAULT_REF_DATE = 1 ∧
    ((2022 : Int) - 2022) * 12 + ((3 : Int) - 1) = 2 ∧ (1 : Int) ≠ 2 := by
  refine ⟨by decide, by norm_num, by norm_num⟩

/-- Witness for C2 at concrete inputs: a two-year role gets 24 months,
and a `Present` end resolves to the default reference date 2026-01-01. -/
theorem C2_duration_amended_witness :
    calculate_duration parseFixture (some "2022-01-01") (some "2024-01-01")
      DEFAULT_REF_DATE = ((2024 : Int) - 2022) * 12 + ((1 : Int) - 1) ∧
    calculate_duration parseFixture (some "2022-01-01") (some "Present")
      DEFAULT_REF_DATE = ((2026 : Int) - 2022) * 12 + ((1 : Int) - 1) := by
  constructor
  · exact (C2_duration_amended parseFixture "2022-01-01" "2024-01-01"
      ⟨2022, 1, 1⟩ DEFAULT_REF_DATE).1 ⟨2024, 1, 1⟩ rfl rfl (by decide) (by decide)
      (by decide) (by decide) (by decide)
  · exact (C2_duration_amended parseFixture "2022-01-01" "Present"
      ⟨2022, 1, 1⟩ DEFAULT_REF_DATE).2.1 rfl (Or.inl (by decide)) (by decide)
      (by decide) (by decide)

/-! ## C6: disambiguation -/

/-- The Python substring test agrees with `List.IsInfix`. -/
theorem containsSub_infix_iff (n : List Char) :
    ∀ h : List Char, containsSub n h = true ↔ n <:+: h := by
  intro h
  induction h with
  | nil =>
    simp [containsSub, List.isEmpty_iff, List.infix_nil]
  | cons c cs ih =>
    simp [containsSub, List.isPrefixOf_iff_prefix, ih, List.infix_cons_iff]

/-- A prefix made of characters outside the collapsed class is preserved
verbatim by `collapseRuns` started outside a run. -/
theorem prefix_collapseRuns (p : Char → Bool) :
    ∀ (m l : List Char), (∀ c ∈ m, p c = false) → m <+: l →
      m <+: collapseRuns p false l := by
  intro m
  induction m with
  | nil => intro l _ _; exact List.nil_prefix
  | cons d m' ih =>
    intro l hall hpre
    cases l with
    | nil => exact absurd hpre (by simp)
    | cons e l' =>
      obtain ⟨hde, hpre'⟩ := List.cons_prefix_cons.mp hpre
      subst hde
      have hd : p d = false := hall d (List.mem_cons_self d m')
      simp only [collapseRuns, hd, Bool.false_eq_true, if_false]
      exact List.cons_prefix_cons.mpr
        ⟨rfl, ih l' (fun c hc => hall c (List.mem_cons_of_mem d hc)) hpre'⟩

/-- An infix made of characters outside the collapsed class survives
`collapseRuns` from either flag state. -/
theorem infix_collapseRuns (p : Char → Bool) (m : List Char) (hm : m ≠ [])
    (hall : ∀ c ∈ m, p c = false) :
    ∀ (l : List Char) (b : Bool), m <:+: l → m <:+: collapseRuns p b l := by
  intro l
  induction l with
  | nil =>
    intro b h
    exact absurd (List.infix_nil.mp h) hm
  | cons c cs ih =>
    intro b hinf
    rcases List.infix_cons_iff.mp hinf with hpre | hinf'
    · cases m with
      | nil => exact absurd rfl hm
      | cons d m' =>
        obtain ⟨hdc, hpre'⟩ := List.cons_prefix_cons.mp hpre
        subst hdc
        have hd : p d = false := hall d (List.mem_cons_self d m')
        simp only [collapseRuns, hd, Bool.false_eq_true, if_false]
        exact (List.cons_prefix_cons.mpr
          ⟨rfl, prefix_collapseRuns p m' cs
            (fun c hc => hall c (List.mem_cons_of_mem d hc)) hpre'⟩).isInfix
    · by_cases hc : p c = true
      · cases b with
        | true =>
          simp only [collapseRuns, hc, if_true]
          exact ih true hinf'
        | false =>
          simp only [collapseRuns, hc, if_true]
          exact List.infix_cons (ih true hinf')
      · have hc' : p c = false := by simpa using hc
        simp only [collapseRuns, hc', Bool.false_eq_true, if_false]
        exact List.infix_cons (ih false hinf')

/-- An infix whose head is outside the dropped class survives
`dropWhile`. -/
theorem infix_dropWhile (p : Char → Bool) (m : List Char) (hm : m ≠ [])
    (hall : ∀ c ∈ m, p c = false) :
    ∀ l : List Char, m <:+: l → m <:+: l.dropWhile p := by
  intro l
  induction l with
  | nil => intro h; exact absurd (List.infix_nil.mp h) hm
  | cons c cs ih =>
    intro hinf
    rcases List.infix_cons_iff.mp hinf with hpre | hinf'
    · cases m with
      | nil => exact absurd rfl hm
      | cons d m' =>
        obtain ⟨hdc, _⟩ := List.cons_prefix_cons.mp hpre
        have hd : p c = false := hdc ▸ hall d (List.mem_cons_self d m')
        rw [List.dropWhile_cons, if_neg (by simp [hd])]
        exact hpre.isInfix
    · rw [List.dropWhile_cons]
      by_cases hc : p c = true
      · rw [if_pos hc]
        exact ih hinf'
      · rw [if_neg hc]
        exact List.infix_cons hinf'

/-- A whitespace-free infix of the lowered text survives the whole of
`normalize_text` (strip, character replacement, whitespace collapse),
provided its characters are kept verbatim by the replacement step. -/
theorem infix_normalize_text (ctx : String) (m : List Char) (hm : m ≠ [])
    (hsp : ∀ c ∈ m, isPySpace c = false)
    (hkeep : ∀ c ∈ m, normKeep c = true)
    (hinf : m <:+: (pyLower ctx).data) :
    m <:+: (normalize_text ctx).data := by
  have hctx : ctx ≠ "" := by
    intro h
    subst h
    have : m = [] := List.infix_nil.mp (by simpa [pyLower] using hinf)
    exact hm this
  have h1 : m <:+: ((pyLower ctx).data.dropWhile isPySpace) :=
    infix_dropWhile isPySpace m hm hsp _ hinf
  have h2 : m <:+: (pyStrip (pyLower ctx)).data := by
    have hrev : m.reverse <:+:
        ((pyLower ctx).data.dropWhile isPySpace).reverse.dropWhile isPySpace := by
      refine infix_dropWhile isPySpace m.reverse ?_ ?_ _ ?_
      · simpa using hm
      · intro c hc
        exact hsp c (List.mem_reverse.mp hc)
      · exact List.reverse_infix.mpr h1
    have := List.reverse_infix.mpr hrev
    simpa [pyStrip] using this
  have h3 : m <:+:
      ((pyStrip (pyLower ctx)).data.map (fun c => if normKeep c then c else ' ')) := by
    have hmap := h2.map (fun c => if normKeep c then c else ' ')
    have hfix : m.map (fun c => if normKeep c then c else ' ') = m := by
      refine (List.map_congr_left ?_).trans m.map_id
      intro c hc
      simp [hkeep c hc]
    rwa [hfix] at hmap
  have h4 : m <:+: collapseRuns isPySpace false
      ((pyStrip (pyLower ctx)).data.map (fun c => if normKeep c then c else ' ')) :=
    infix_collapseRuns isPySpace m hm hsp _ false h3
  simpa [normalize_text, hctx] using h4

/-- C6: disambiguation rule semantics.  For parsed rules over the
combined lowered text of canonicalized raw plus context: any occurring
blocking phrase blocks; otherwise a non-empty allow list admits the
match exactly when one of its phrases occurs; otherwise the match is
allowed.  Missing or malformed rules always allow.  And concretely, any
master skill canonicalizing to `java` with
`block_if_contains = ["javascript"]` blocks the mention `"Java"`
whenever the (lowered) context contains `"javascript"`, making the
matcher return `disambiguation_blocked`. -/
theorem C6_disambiguation_rules :
    (∀ sk : MasterSkill, ∀ normalized context : String,
      (sk.DisambiguationRules = none ∨ sk.DisambiguationRules = some none) →
      passes_disambiguation sk normalized context = true) ∧
    (∀ sk : MasterSkill, ∀ rules : DisambRules, ∀ normalized context : String,
      sk.DisambiguationRules = some (some rules) →
      ((∃ b ∈ rules.block_if_contains,
          strContains (pyLower (normalized ++ " " ++ context)) (pyLower b) = true) →
        passes_disambiguation sk normalized context = false) ∧
      ((∀ b ∈ rules.block_if_contains,
          strContains (pyLower (normalized ++ " " ++ context)) (pyLower b) = false) →
        rules.allow_if_contains ≠ [] →
        (passes_disambiguation sk normalized context = true ↔
          ∃ a ∈ rules.allow_if_contains,
            strContains (pyLower (normalized ++ " " ++ context)) (pyLower a) = true)) ∧
      ((∀ b ∈ rules.block_if_contains,
          strContains (pyLower (normalized ++ " " ++ context)) (pyLower b) = false) →
        rules.allow_if_contains = [] →
        passes_disambiguation sk normalized context = true)) ∧
    (∀ (sk : MasterSkill) (allowL : List String) (ctx : String)
      (cosF : List ℚ → List ℚ → ℚ) (vi : List VectorEntry)
      (ef : Option (String → List ℚ)) (ai : Bool),
      normalize_skill_text2 (normalize_text sk.SkillName) = "java" →
      sk.DisambiguationRules = some (some ⟨["javascript"], allowL⟩) →
      strContains (pyLower ctx) "javascript" = true →
      normalize_and_match_skill cosF "Java" [sk] vi ef ctx ai =
        .ok (.nothing "disambiguation_blocked")) := by
  refine ⟨?_, ?_, ?_⟩
  · intro sk normalized context h
    rcases h with h | h <;> simp [passes_disambiguation, h]
  · intro sk rules normalized context hr
    refine ⟨?_, ?_, ?_⟩
    · intro hex
      have hany : rules.block_if_contains.any
          (fun b => strContains (pyLower (normalized ++ " " ++ context)) (pyLower b)) =
          true := List.any_eq_true.mpr hex
      simp [passes_disambiguation, hr, hany]
    · intro hnone hne
      have hany : rules.block_if_contains.any
          (fun b => strContains (pyLower (normalized ++ " " ++ context)) (pyLower b)) =
          false := by
        simp only [List.any_eq_false]
        intro b hb
        simp [hnone b hb]
      simp [passes_disambiguation, hr, hany, hne, List.any_eq_true,
        List.isEmpty_iff]
    · intro hnone hempty
      have hany : rules.block_if_contains.any
          (fun b => strContains (pyLower (normalized ++ " " ++ context)) (pyLower b)) =
          false := by
        simp only [List.any_eq_false]
        intro b hb
        simp [hnone b hb]
      simp [passes_disambiguation, hr, hany, hempty]
  · intro sk allowL ctx cosF vi ef ai hname hrules hctx
    have hjava : normalize_skill_text2 (normalize_text "Java") = "java" := by decide
    have hblocked :
        passes_disambiguation sk "java" (normalize_text ctx) = false := by
      have hm : ("javascript".data : List Char) ≠ [] := by decide
      have hsp : ∀ c ∈ ("javascript".data : List Char), isPySpace c = false := by decide
      have hkeep : ∀ c ∈ ("javascript".data : List Char), normKeep c = true := by decide
      have hfix : ("javascript".data : List Char).map Char.toLower = "javascript".data := by
        decide
      have h1 : ("javascript".data : List Char) <:+: (pyLower ctx).data :=
        (containsSub_infix_iff _ _).mp hctx
      have h2 : ("javascript".data : List Char) <:+: (normalize_text ctx).data :=
        infix_normalize_text ctx _ hm hsp hkeep h1
      have h3 : ("javascript".data : List Char) <:+:
          (pyLower ("java" ++ " " ++ normalize_text ctx)).data := by
        have hmap := h2.map Char.toLower
        rw [hfix] at hmap
        have hsfx : ((normalize_text ctx).data.map Char.toLower) <:+
            ("java ".data.map Char.toLower ++ (normalize_text ctx).data.map Char.toLower) :=
          List.suffix_append _ _
        have : ("javascript".data : List Char) <:+:
            ("java ".data.map Char.toLower ++ (normalize_text ctx).data.map Char.toLower) :=
          hmap.trans hsfx.isInfix
        simpa [pyLower, List.map_append] using this
      have hocc : strContains (pyLower ("java" ++ " " ++ normalize_text ctx))
          "javascript" = true :=
        (containsSub_infix_iff _ _).mpr h3
      have hany : (["javascript"] : List String).any
          (fun b => strContains (pyLower ("java" ++ " " ++ normalize_text ctx))
            (pyLower b)) = true := by
        simp only [List.any_cons, List.any_nil, Bool.or_false]
        have : pyLower "javascript" = "javascript" := by decide
        rw [this]
        exact hocc
      simp only [passes_disambiguation, hrules]
      rw [hany]
      simp
    have hpred : (normalize_skill_text2 (normalize_text sk.SkillName) == "java") = true := by
      simp [hname]
    simp only [normalize_and_match_skill, hjava]
    rw [if_neg (by decide : ¬("java" : String) = "")]
    simp only [List.find?_cons, hpred, hblocked, Bool.false_eq_true, if_false]

/-- Witness for C6 at a concrete skill and context: the mention `"Java"`
against a context containing `"JavaScript"` comes back blocked. -/
theorem C6_disambiguation_rules_witness :
    normalize_and_match_skill cosZero "Java" [masterJavaBlocked] [] none
      "Uses JavaScript frameworks" false = .ok (.nothing "disambiguation_blocked") :=
  C6_disambiguation_rules.2.2 masterJavaBlocked [] "Uses JavaScript frameworks"
    cosZero [] none false (by decide) rfl (by decide)

/-! ## C3: the vector tier of the matcher crashes -/

/-- C3 (code bug): a raw mention that survives the exact, alias and
token tiers and wins the vector scan with cosine 1 ≥ 0.92 does not
return `(cosine rounded to 3 dp, "vector")` as specified: the code reads
`best_skill.skill_ref`, an attribute the vector-index rows (fetched
straight from `MasterSkills`) do not have, so the call raises
`AttributeError`. -/
theorem C3_vector_match_raises_attribute_error :
    normalize_and_match_skill cosSame "golang" [] [⟨[1], none⟩]
      (some (fun _ => [1])) "" false =
      .error "AttributeError: Row object has no attribute skill_ref" := by
  have hnorm : normalize_skill_text2 (normalize_text "golang") = "golang" := by decide
  simp only [normalize_and_match_skill, hnorm]
  rw [if_neg (by decide : ¬("golang" : String) = "")]
  simp only [List.find?_nil, List.isEmpty_cons, Bool.not_false, if_true,
    List.foldl_cons, List.foldl_nil, cosSame]
  norm_num

/-! ## C7: aggregation crashes on `technology_list` mentions -/

/-- C7 (code bug): a resolved mention whose source is `technology_list`
(a legal `ExtractedSkill` source that `get_job_skill_mentions` forwards)
raises `KeyError` inside the accumulator update, because the
`EVIDENCE_STRENGTH` dictionary only has keys `responsibility`,
`role_title` and `skills_section`; ingestion aborts instead of reaching
a state satisfying the claimed invariants. -/
theorem C7_technology_list_mention_raises_key_error :
    process_extracted_skills cosZero [masterPython] [] none AggState.init .mid 12
      ⟨2020, 1, 1⟩ ⟨2021, 1, 1⟩ none [⟨"Python", "technology_list", 1, ""⟩] =
      .error "KeyError: EVIDENCE_STRENGTH" := rfl

/-! ## C10: `confidence_sources` is shared class-level state -/

/-- C10 (code bug): `confidence_sources` is a class attribute of
`SkillMetrics`, so the method appended while aggregating one skill
(`language_python` here) is observed on every other accumulator: reading
`confidence_sources` for the unrelated skill code `language_java` yields
`["exact"]` after the run, not the `[]` it held before, contradicting
per-instance isolation. -/
theorem C10_confidence_sources_shared_across_instances :
    observed_confidence_sources
      (aggStateOf (process_extracted_skills cosZero [masterPython] [] none
        AggState.init .mid 12 ⟨2020, 1, 1⟩ ⟨2021, 1, 1⟩ none
        [⟨"Python", "skills_section", 1, ""⟩])) "language_java" = ["exact"] ∧
    observed_confidence_sources AggState.init "language_java" = [] ∧
    (["exact"] : List String) ≠ [] := ⟨rfl, rfl, by decide⟩

/-! ## C1: score boundedness and the perfect-candidate score -/

/-- The experience factor lies in `[0, 1]` for non-negative months. -/
theorem exp_factor_bounds (t m : Int) (ht : 0 ≤ t) :
    0 ≤ exp_factor t m ∧ exp_factor t m ≤ 1 := by
  have hM : (1 : ℝ) ≤ ((max m 1 : Int) : ℝ) := by exact_mod_cast le_max_right m 1
  constructor
  · refine le_min zero_le_one (Real.log_nonneg ?_)
    have : (0 : ℝ) ≤ (t : ℝ) / ((max m 1 : Int) : ℝ) :=
      div_nonneg (by exact_mod_cast ht) (by linarith)
    linarith
  · exact min_le_left _ _

/-- The experience factor saturates at 1 as soon as
`total ≥ (e - 1) · max(min_months, 1)`. -/
theorem exp_factor_saturated (t m : Int)
    (h : (Real.exp 1 - 1) * ((max m 1 : Int) : ℝ) ≤ (t : ℝ)) :
    exp_factor t m = 1 := by
  have hM : (1 : ℝ) ≤ ((max m 1 : Int) : ℝ) := by exact_mod_cast le_max_right m 1
  have hM0 : (0 : ℝ) < ((max m 1 : Int) : ℝ) := by linarith
  have hdiv : Real.exp 1 - 1 ≤ (t : ℝ) / ((max m 1 : Int) : ℝ) := (le_div_iff hM0).mpr h
  have hx : Real.exp 1 ≤ 1 + (t : ℝ) / ((max m 1 : Int) : ℝ) := by linarith
  have hpos : (0 : ℝ) < 1 + (t : ℝ) / ((max m 1 : Int) : ℝ) :=
    lt_of_lt_of_le (Real.exp_pos 1) hx
  have hlog : 1 ≤ Real.log (1 + (t : ℝ) / ((max m 1 : Int) : ℝ)) :=
    (Real.le_log_iff_exp_le hpos).mpr hx
  simpa [exp_factor] using min_eq_left hlog

/-- The recency ladder lies in `[0, 1]`. -/
theorem recency_factor_bounds (d : Int) :
    0 ≤ recency_factor d ∧ recency_factor d ≤ 1 := by
  simp only [recency_factor]
  split_ifs <;> norm_num

/-- At most 360 days since last use gives recency factor 1. -/
theorem recency_factor_of_le (d : Int) (h : d ≤ 360) : recency_factor d = 1 := by
  unfold recency_factor
  rw [if_pos]
  rw [div_le_iff (by norm_num : (0 : ℚ) < 30)]
  have : (d : ℚ) ≤ 360 := by exact_mod_cast h
  linarith

/-- The evidence factor lies in `[0, 1]` for non-negative strengths. -/
theorem evidence_factor_bounds (s : Int) (hs : 0 ≤ s) :
    0 ≤ evidence_factor s ∧ evidence_factor s ≤ 1 := by
  unfold evidence_factor
  constructor
  · refine le_min ?_ zero_le_one
    positivity
  · exact min_le_right _ _

/-- Strength at least 3 gives evidence factor 1. -/
theorem evidence_factor_of_ge (s : Int) (h : 3 ≤ s) : evidence_factor s = 1 := by
  unfold evidence_factor
  refine min_eq_right ?_
  rw [le_div_iff (by norm_num : (0 : ℚ) < 3)]
  have : (3 : ℚ) ≤ (s : ℚ) := by exact_mod_cast h
  linarith

/-- The normalization penalty lies in `[0, 1]`. -/
theorem norm_penalty_bounds (m : String) :
    0 ≤ norm_penalty m ∧ norm_penalty m ≤ 1 := by
  unfold norm_penalty
  split_ifs <;> norm_num

/-- The dictionary lookup is non-negative when every stored weight and
the default are. -/
theorem dictGetQ_nonneg (w : List (String × ℚ)) (hw : ∀ p ∈ w, 0 ≤ p.2)
    (k : String) (d : ℚ) (hd : 0 ≤ d) : 0 ≤ dictGetQ w k d := by
  unfold dictGetQ
  cases hfind : w.reverse.find? (fun p => p.1 = k) with
  | none => simpa using hd
  | some p =>
    simp only
    exact hw p (List.mem_reverse.mp (List.mem_of_find?_eq_some hfind))

/-- Composite weights are non-negative for non-negative weight tables. -/
theorem composite_weight_nonneg (w : List (String × ℚ)) (hw : ∀ p ∈ w, 0 ≤ p.2)
    (r : Requirement) : 0 ≤ composite_weight w r := by
  unfold composite_weight jd_weight skill_weight
  have h1 : (0 : ℚ) ≤ (if r.requirement_level = .hard then 1 else 0.4) := by
    split_ifs <;> norm_num
  cases r with
  | skill s => exact mul_nonneg h1 (dictGetQ_nonneg w hw _ 1 zero_le_one)
  | category c => exact mul_nonneg h1 (dictGetQ_nonneg w hw _ 1 zero_le_one)

/-- Python's keyed `max` picks an element of the list it scans. -/
theorem max_by_months_strength_mem (x : ScoreRow) (xs : List ScoreRow) :
    max_by_months_strength x xs ∈ x :: xs := by
  unfold max_by_months_strength
  induction xs generalizing x with
  | nil => simp
  | cons y ys ih =>
    simp only [List.foldl_cons]
    have step := ih (if x.TotalMonths < y.TotalMonths ∨
      (x.TotalMonths = y.TotalMonths ∧ x.MaxEvidenceStrength < y.MaxEvidenceStrength)
      then y else x)
    rcases List.mem_cons.mp step with heq | hmem
    · rw [heq]
      split_ifs <;> simp
    · simp [List.mem_cons_of_mem, hmem]

/-- A row found by the `by_skill` dictionary comes from the loaded rows. -/
theorem by_skill_mem (rows : List ScoreRow) (code : Option String) (row : ScoreRow)
    (h : by_skill rows code = some row) : row ∈ rows := by
  cases code with
  | none => simp [by_skill] at h
  | some c =>
    simp only [by_skill] at h
    exact List.mem_reverse.mp (List.mem_of_find?_eq_some h)


/-- Bounds for a product of a non-negative head factor and four factors in
`[0, 1]`. -/
theorem prod4_bounds (ab e r v p : ℝ) (hab : 0 ≤ ab)
    (he0 : 0 ≤ e) (he1 : e ≤ 1) (hr0 : 0 ≤ r) (hr1 : r ≤ 1)
    (hv0 : 0 ≤ v) (hv1 : v ≤ 1) (hp0 : 0 ≤ p) (hp1 : p ≤ 1) :
    0 ≤ ab * e * r * v * p ∧ ab * e * r * v * p ≤ ab := by
  have h1 : 0 ≤ ab * e := mul_nonneg hab he0
  have h2 : 0 ≤ ab * e * r := mul_nonneg h1 hr0
  have h3 : 0 ≤ ab * e * r * v := mul_nonneg h2 hv0
  refine ⟨mul_nonneg h3 hp0, ?_⟩
  calc ab * e * r * v * p ≤ ab * e * r * v := mul_le_of_le_one_right h3 hp1
    _ ≤ ab * e * r := mul_le_of_le_one_right h2 hv1
    _ ≤ ab * e := mul_le_of_le_one_right h1 hr1
    _ ≤ ab := mul_le_of_le_one_right hab he1

/-- A matched contribution is bounded by the requirement's composite
weight (and is non-negative), given non-negative weights and
non-negative months/strengths on the candidate's rows. -/
theorem score_requirement_bounds (cosF : List ℚ → List ℚ → ℚ)
    (master_skills : List MasterSkill) (vector_index : List VectorEntry)
    (embed_fn : Option (String → List ℚ)) (today : Date) (role_context : String)
    (w : List (String × ℚ)) (rows : List ScoreRow) (req : Requirement)
    (hw : ∀ p ∈ w, 0 ≤ p.2)
    (hrows : ∀ r ∈ rows, 0 ≤ r.TotalMonths ∧ 0 ≤ r.MaxEvidenceStrength) :
    ∀ c item, score_requirement cosF master_skills vector_index embed_fn today
      role_context w rows req = .ok (c, item) →
      0 ≤ c ∧ c ≤ (composite_weight w req : ℝ) := by
  intro c item h
  have hcw : (0 : ℚ) ≤ composite_weight w req := composite_weight_nonneg w hw req
  have hcwR : (0 : ℝ) ≤ ((composite_weight w req : ℚ) : ℝ) := by exact_mod_cast hcw
  cases req with
  | skill sreq =>
    cases hm : normalize_and_match_skill cosF sreq.raw_skill master_skills vector_index
        embed_fn role_context false with
    | error e =>
      simp only [score_requirement, hm] at h
      exact Except.noConfusion h
    | ok res =>
      simp only [score_requirement, hm] at h
      cases hrow : by_skill rows res.skill_code with
      | none =>
        simp only [hrow, Except.ok.injEq, Prod.mk.injEq] at h
        obtain ⟨hc, -⟩ := h
        subst hc
        exact ⟨le_refl 0, hcwR⟩
      | some row =>
        simp only [hrow, Except.ok.injEq, Prod.mk.injEq] at h
        obtain ⟨hc, -⟩ := h
        subst hc
        obtain ⟨hT, hS⟩ := hrows row (by_skill_mem rows res.skill_code row hrow)
        have hef := exp_factor_bounds row.TotalMonths (sreq.min_months.getD 0) hT
        have hrf := recency_factor_bounds (today.ordinal - row.LastUsedDate.ordinal)
        have hvf := evidence_factor_bounds row.MaxEvidenceStrength hS
        have hpen := norm_penalty_bounds row.NormalizationMethod
        exact prod4_bounds
          ((jd_weight (.skill sreq) * skill_weight w (.skill sreq) : ℚ) : ℝ)
          (exp_factor row.TotalMonths (sreq.min_months.getD 0))
          ((recency_factor (today.ordinal - row.LastUsedDate.ordinal) : ℚ) : ℝ)
          ((evidence_factor row.MaxEvidenceStrength : ℚ) : ℝ)
          ((norm_penalty row.NormalizationMethod : ℚ) : ℝ)
          hcwR hef.1 hef.2
          (by exact_mod_cast hrf.1) (by exact_mod_cast hrf.2)
          (by exact_mod_cast hvf.1) (by exact_mod_cast hvf.2)
          (by exact_mod_cast hpen.1) (by exact_mod_cast hpen.2)
  | category creq =>
    simp only [score_requirement] at h
    cases hcat : by_category rows creq.category with
    | nil =>
      simp only [hcat, Except.ok.injEq, Prod.mk.injEq] at h
      obtain ⟨hc, -⟩ := h
      subst hc
      exact ⟨le_refl 0, hcwR⟩
    | cons m ms =>
      simp only [hcat, Except.ok.injEq, Prod.mk.injEq] at h
      obtain ⟨hc, -⟩ := h
      subst hc
      have hmem : max_by_months_strength m ms ∈ rows := by
        have h1 := max_by_months_strength_mem m ms
        rw [← hcat] at h1
        exact List.mem_of_mem_filter h1
      obtain ⟨hT, hS⟩ := hrows _ hmem
      have hef : 0 ≤ min 1 (Real.log (1 + ((max_by_months_strength m ms).TotalMonths : ℝ)))
          ∧ min 1 (Real.log (1 + ((max_by_months_strength m ms).TotalMonths : ℝ))) ≤ 1 := by
        refine ⟨le_min zero_le_one (Real.log_nonneg ?_), min_le_left _ _⟩
        have h0 : (0 : ℝ) ≤ ((max_by_months_strength m ms).TotalMonths : ℝ) := by
          exact_mod_cast hT
        linarith
      have hrf := recency_factor_bounds
        (today.ordinal - (max_by_months_strength m ms).LastUsedDate.ordinal)
      have hvf := evidence_factor_bounds (max_by_months_strength m ms).MaxEvidenceStrength hS
      have hpen := norm_penalty_bounds (max_by_months_strength m ms).NormalizationMethod
      exact prod4_bounds
        ((jd_weight (.category creq) * skill_weight w (.category creq) : ℚ) : ℝ)
        (min 1 (Real.log (1 + ((max_by_months_strength m ms).TotalMonths : ℝ))))
        ((recency_factor (today.ordinal - (max_by_months_strength m ms).LastUsedDate.ordinal) : ℚ) : ℝ)
        ((evidence_factor (max_by_months_strength m ms).MaxEvidenceStrength : ℚ) : ℝ)
        ((norm_penalty (max_by_months_strength m ms).NormalizationMethod : ℚ) : ℝ)
        hcwR hef.1 hef.2
        (by exact_mod_cast hrf.1) (by exact_mod_cast hrf.2)
        (by exact_mod_cast hvf.1) (by exact_mod_cast hvf.2)
        (by exact_mod_cast hpen.1) (by exact_mod_cast hpen.2)

/-- A requirement matched by a perfect row contributes exactly its
composite weight: all four multiplicative factors evaluate to 1. -/
theorem score_requirement_perfect (cosF : List ℚ → List ℚ → ℚ)
    (master_skills : List MasterSkill) (vector_index : List VectorEntry)
    (embed_fn : Option (String → List ℚ)) (today : Date) (role_context : String)
    (w : List (String × ℚ)) (rows : List ScoreRow) (req : Requirement)
    (hperf : PerfectReq cosF master_skills vector_index embed_fn today
      role_context rows req) :
    ∃ item, score_requirement cosF master_skills vector_index embed_fn today
      role_context w rows req = .ok (((composite_weight w req : ℚ) : ℝ), item) := by
  cases req with
  | skill sreq =>
    obtain ⟨res, hm, row, hrow, hS, hR, hV, hT⟩ := hperf
    have h1 := exp_factor_saturated row.TotalMonths (sreq.min_months.getD 0) hT
    have h2 := recency_factor_of_le (today.ordinal - row.LastUsedDate.ordinal) hR
    have h3 := evidence_factor_of_ge row.MaxEvidenceStrength hS
    have h4 : norm_penalty row.NormalizationMethod = 1 := if_neg hV
    cases hsr : score_requirement cosF master_skills vector_index embed_fn today
        role_context w rows (.skill sreq) with
    | error e =>
      simp only [score_requirement, hm, hrow] at hsr
      exact Except.noConfusion hsr
    | ok ci =>
      obtain ⟨c, item⟩ := ci
      simp only [score_requirement, hm, hrow, h1, h2, h3, h4, Except.ok.injEq,
        Prod.mk.injEq] at hsr
      obtain ⟨hc, -⟩ := hsr
      refine ⟨item, ?_⟩
      have hcomp : ((composite_weight w (Requirement.skill sreq) : ℚ) : ℝ) = c := by
        rw [← hc]
        norm_num [composite_weight]
      rw [hcomp]
  | category creq =>
    cases hcat : by_category rows creq.category with
    | nil =>
      exfalso
      simp only [PerfectReq, hcat] at hperf
    | cons m ms =>
      simp only [PerfectReq, hcat] at hperf
      obtain ⟨hS, hR, hV, hT⟩ := hperf
      have hT1 : Real.exp 1 - 1 ≤ ((max_by_months_strength m ms).TotalMonths : ℝ) := by
        have hmax : ((max (1 : Int) 1 : Int) : ℝ) = 1 := by norm_num
        rw [hmax, mul_one] at hT
        exact hT
      have hx : Real.exp 1 ≤ 1 + ((max_by_months_strength m ms).TotalMonths : ℝ) := by
        linarith
      have h1 : min 1 (Real.log (1 + ((max_by_months_strength m ms).TotalMonths : ℝ))) = 1 :=
        min_eq_left ((Real.le_log_iff_exp_le
          (lt_of_lt_of_le (Real.exp_pos 1) hx)).mpr hx)
      have h2 := recency_factor_of_le
        (today.ordinal - (max_by_months_strength m ms).LastUsedDate.ordinal) hR
      have h3 := evidence_factor_of_ge (max_by_months_strength m ms).MaxEvidenceStrength hS
      have h4 : norm_penalty (max_by_months_strength m ms).NormalizationMethod = 1 :=
        if_neg hV
      cases hsr : score_requirement cosF master_skills vector_index embed_fn today
          role_context w rows (.category creq) with
      | error e =>
        simp only [score_requirement, hcat] at hsr
        exact Except.noConfusion hsr
      | ok ci =>
        obtain ⟨c, item⟩ := ci
        simp only [score_requirement, hcat, h1, h2, h3, h4, Except.ok.injEq,
          Prod.mk.injEq] at hsr
        obtain ⟨hc, -⟩ := hsr
        refine ⟨item, ?_⟩
        have hcomp : ((composite_weight w (Requirement.category creq) : ℚ) : ℝ) = c := by
          rw [← hc]
          norm_num [composite_weight]
        rw [hcomp]

/-- The requirement loop's total is bounded by the un-rounded sum of
composite weights. -/
theorem score_requirements_bounds (cosF : List ℚ → List ℚ → ℚ)
    (master_skills : List MasterSkill) (vector_index : List VectorEntry)
    (embed_fn : Option (String → List ℚ)) (today : Date) (role_context : String)
    (w : List (String × ℚ)) (rows : List ScoreRow)
    (hw : ∀ p ∈ w, 0 ≤ p.2)
    (hrows : ∀ r ∈ rows, 0 ≤ r.TotalMonths ∧ 0 ≤ r.MaxEvidenceStrength)
    (reqs : List Requirement) :
    ∀ t items, score_requirements cosF master_skills vector_index embed_fn today
      role_context w rows reqs = .ok (t, items) →
      0 ≤ t ∧ t ≤ ((sum_composite_weights w reqs : ℚ) : ℝ) := by
  induction reqs with
  | nil =>
    intro t items h
    simp only [score_requirements, Except.ok.injEq, Prod.mk.injEq] at h
    obtain ⟨ht, -⟩ := h
    subst ht
    simp [sum_composite_weights]
  | cons req rest ih =>
    intro t items h
    simp only [score_requirements] at h
    cases hsr : score_requirement cosF master_skills vector_index embed_fn today
        role_context w rows req with
    | error e =>
      rw [hsr] at h
      exact Except.noConfusion h
    | ok ci =>
      obtain ⟨c, item⟩ := ci
      rw [hsr] at h
      cases hrest : score_requirements cosF master_skills vector_index embed_fn today
          role_context w rows rest with
      | error e =>
        rw [hrest] at h
        exact Except.noConfusion h
      | ok ti =>
        obtain ⟨t', items'⟩ := ti
        rw [hrest] at h
        simp only [Except.ok.injEq, Prod.mk.injEq] at h
        obtain ⟨ht, -⟩ := h
        subst ht
        have h1 := score_requirement_bounds cosF master_skills vector_index embed_fn
          today role_context w rows req hw hrows c item hsr
        have h2 := ih t' items' hrest
        have hsum : sum_composite_weights w (req :: rest) =
            composite_weight w req + sum_composite_weights w rest := by
          simp [sum_composite_weights]
        constructor
        · linarith [h1.1, h2.1]
        · rw [hsum]
          push_cast
          linarith [h1.2, h2.2]

/-- A candidate perfect on every requirement accumulates exactly the
un-rounded sum of composite weights. -/
theorem score_requirements_perfect (cosF : List ℚ → List ℚ → ℚ)
    (master_skills : List MasterSkill) (vector_index : List VectorEntry)
    (embed_fn : Option (String → List ℚ)) (today : Date) (role_context : String)
    (w : List (String × ℚ)) (rows : List ScoreRow) (reqs : List Requirement)
    (hperf : ∀ req ∈ reqs, PerfectReq cosF master_skills vector_index embed_fn today
      role_context rows req) :
    ∃ items, score_requirements cosF master_skills vector_index embed_fn today
      role_context w rows reqs =
      .ok (((sum_composite_weights w reqs : ℚ) : ℝ), items) := by
  induction reqs with
  | nil => exact ⟨[], by norm_num [score_requirements, sum_composite_weights]⟩
  | cons req rest ih =>
    obtain ⟨item, hitem⟩ := score_requirement_perfect cosF master_skills vector_index
      embed_fn today role_context w rows req (hperf req (by simp))
    obtain ⟨items, hitems⟩ := ih (fun r hr => hperf r (by simp [hr]))
    refine ⟨item :: items, ?_⟩
    simp only [score_requirements, hitem, hitems]
    have hsum : sum_composite_weights w (req :: rest) =
        composite_weight w req + sum_composite_weights w rest := by
      simp [sum_composite_weights]
    rw [hsum]
    push_cast
    norm_num

/-- Round-half-even maps `[0, B]` into `[0, B]` for an integer bound. -/
theorem roundHalfEvenR_nonneg_le (y : ℝ) (B : ℤ) (h0 : 0 ≤ y) (hB : y ≤ (B : ℝ)) :
    0 ≤ roundHalfEvenR y ∧ roundHalfEvenR y ≤ B := by
  have hf0 : 0 ≤ ⌊y⌋ := Int.floor_nonneg.mpr h0
  have hfB : ⌊y⌋ ≤ B := by
    have h := Int.floor_le_floor hB
    simpa using h
  have hfy : (⌊y⌋ : ℝ) ≤ y := Int.floor_le y
  simp only [roundHalfEvenR]
  split_ifs with h1 h2 h3
  · exact ⟨hf0, hfB⟩
  · have hlt : (⌊y⌋ : ℝ) < (B : ℝ) := by linarith
    have hltz : ⌊y⌋ < B := by exact_mod_cast hlt
    exact ⟨by omega, by omega⟩
  · exact ⟨hf0, hfB⟩
  · have heq : y - ⌊y⌋ = 1/2 := le_antisymm (not_lt.mp h2) (not_lt.mp h1)
    have hlt : (⌊y⌋ : ℝ) < (B : ℝ) := by linarith
    have hltz : ⌊y⌋ < B := by exact_mod_cast hlt
    exact ⟨by omega, by omega⟩

/-- Python `round(x, 4)` maps `[0, 100]` into `[0, 100]`. -/
theorem pyRoundR4_bounds (x : ℝ) (h0 : 0 ≤ x) (h100 : x ≤ 100) :
    0 ≤ pyRoundR 4 x ∧ pyRoundR 4 x ≤ 100 := by
  have hy0 : 0 ≤ x * 10 ^ 4 := by positivity
  have hyB : x * 10 ^ 4 ≤ ((1000000 : ℤ) : ℝ) := by push_cast; nlinarith
  obtain ⟨ha, hb⟩ := roundHalfEvenR_nonneg_le (x * 10 ^ 4) 1000000 hy0 hyB
  simp only [pyRoundR]
  constructor
  · have : (0 : ℝ) ≤ ((roundHalfEvenR (x * 10 ^ 4) : ℤ) : ℝ) := by exact_mod_cast ha
    positivity
  · rw [div_le_iff (by norm_num : (0 : ℝ) < 10 ^ 4)]
    have hbr : ((roundHalfEvenR (x * 10 ^ 4) : ℤ) : ℝ) ≤ ((1000000 : ℤ) : ℝ) := by
      exact_mod_cast hb
    push_cast at hbr ⊢
    linarith

/-- Python `round(100.0, 4) = 100.0`. -/
theorem pyRoundR4_100 : pyRoundR 4 (100 : ℝ) = 100 := by
  have h1 : (100 : ℝ) * 10 ^ 4 = ((1000000 : ℤ) : ℝ) := by norm_num
  have hfloor : ⌊(100 : ℝ) * 10 ^ 4⌋ = 1000000 := by rw [h1, Int.floor_intCast]
  simp only [pyRoundR, roundHalfEvenR, hfloor]
  norm_num

/-- C1 (amended): with non-negative role weights, non-negative stored
months and strengths, and a composite-weight sum that is exact at 4
decimal places (so the rounding inside `calculate_max_possible_score`
loses nothing), every final normalized score produced by
`_score_candidate` against that maximum lies in `[0, 100]`; and a
candidate perfect on every requirement — which requires the experience
factor to saturate, i.e. `total_months ≥ (e − 1) · max(min_months, 1)`,
strictly more than the claim's `total_months ≥ min_months` — scores
exactly 100 whenever the weight sum is positive. -/
theorem C1_score_bounds_amended (cosF : List ℚ → List ℚ → ℚ) (st : Store)
    (vector_index : List VectorEntry) (embed_fn : Option (String → List ℚ))
    (today : Date) (jd : JobSkillProfile) (w : List (String × ℚ)) (cid : Int)
    (hw : ∀ p ∈ w, 0 ≤ p.2)
    (hrows : ∀ r ∈ candidate_score_rows st cid,
      0 ≤ r.TotalMonths ∧ 0 ≤ r.MaxEvidenceStrength)
    (hexact : calculate_max_possible_score w jd =
      sum_composite_weights w jd.requirements) :
    (∀ s bd, score_candidate cosF st vector_index embed_fn today jd w cid
        (calculate_max_possible_score w jd) = .ok (s, bd) → 0 ≤ s ∧ s ≤ 100) ∧
    ((∀ req ∈ jd.requirements, PerfectReq cosF st.masterSkills vector_index
        embed_fn today jd.role_context (candidate_score_rows st cid) req) →
      0 < sum_composite_weights w jd.requirements →
      scoreOf (score_candidate cosF st vector_index embed_fn today jd w cid
        (calculate_max_possible_score w jd)) = 100) := by
  have hsumnn : (0 : ℚ) ≤ sum_composite_weights w jd.requirements := by
    refine List.sum_nonneg ?_
    intro q hq
    obtain ⟨req, -, rfl⟩ := List.mem_map.mp hq
    exact composite_weight_nonneg w hw req
  constructor
  · intro s bd h
    simp only [score_candidate] at h
    cases hsr : score_requirements cosF st.masterSkills vector_index embed_fn today
        jd.role_context w (candidate_score_rows st cid) jd.requirements with
    | error e =>
      rw [hsr] at h
      exact Except.noConfusion h
    | ok ti =>
      obtain ⟨total, items⟩ := ti
      rw [hsr] at h
      simp only [Except.ok.injEq, Prod.mk.injEq] at h
      obtain ⟨hs, -⟩ := h
      subst hs
      obtain ⟨h0, hle⟩ := score_requirements_bounds cosF st.masterSkills vector_index
        embed_fn today jd.role_context w (candidate_score_rows st cid) hw hrows
        jd.requirements total items hsr
      by_cases hM : calculate_max_possible_score w jd = 0
      · rw [if_pos hM]
        exact pyRoundR4_bounds _ (by norm_num) (by norm_num)
      · rw [if_neg hM]
        have hMpos : (0 : ℚ) < calculate_max_possible_score w jd := by
          rw [hexact] at hM ⊢
          exact lt_of_le_of_ne hsumnn (Ne.symm hM)
        have hMposR : (0 : ℝ) < ((calculate_max_possible_score w jd : ℚ) : ℝ) := by
          exact_mod_cast hMpos
        have hratio1 : total / ((calculate_max_possible_score w jd : ℚ) : ℝ) ≤ 1 := by
          rw [div_le_one hMposR, hexact]
          exact hle
        have hratio0 : 0 ≤ total / ((calculate_max_possible_score w jd : ℚ) : ℝ) :=
          div_nonneg h0 (le_of_lt hMposR)
        exact pyRoundR4_bounds _ (by nlinarith) (by nlinarith)
  · intro hperf hpos
    obtain ⟨items, hitems⟩ := score_requirements_perfect cosF st.masterSkills
      vector_index embed_fn today jd.role_context w (candidate_score_rows st cid)
      jd.requirements hperf
    have hMne : calculate_max_possible_score w jd ≠ 0 := by
      rw [hexact]
      exact ne_of_gt hpos
    have hMneR : ((calculate_max_possible_score w jd : ℚ) : ℝ) ≠ 0 := by
      exact_mod_cast hMne
    have hdiv : ((sum_composite_weights w jd.requirements : ℚ) : ℝ) /
        ((calculate_max_possible_score w jd : ℚ) : ℝ) = 1 := by
      rw [hexact]
      exact div_self (by rw [← hexact]; exact hMneR)
    simp only [score_candidate, hitems, if_neg hMne, scoreOf, hdiv, one_mul]
    exact pyRoundR4_100

/-- Witness for C1 at a concrete perfect input: one hard Java requirement
with `min_months = 0`, a candidate row with 24 months, strength 3, fresh
recency and method `exact`; the normalized score evaluates to exactly
100. -/
theorem C1_score_bounds_amended_witness :
    scoreOf (score_candidate cosZero storeFixture [] none todayFixture jdC1w []
      1 (calculate_max_possible_score [] jdC1w)) = 100 := by
  have hsum : sum_composite_weights [] jdC1w.requirements = 1 := by
    norm_num [sum_composite_weights, jdC1w, composite_weight, jd_weight, skill_weight,
      dictGetQ, reqJava, Requirement.requirement_level]
  have hmax1 : calculate_max_possible_score [] jdC1w = 1 := by
    norm_num [calculate_max_possible_score, hsum, pyRoundQ, roundHalfEvenQ]
  have hexact : calculate_max_possible_score [] jdC1w =
      sum_composite_weights [] jdC1w.requirements := by rw [hmax1, hsum]
  refine (C1_score_bounds_amended cosZero storeFixture [] none todayFixture jdC1w [] 1
      (by simp) (by decide) hexact).2 ?_ ?_
  · intro req hreq
    have hreq' : req = reqJava := by
      simpa [jdC1w] using hreq
    subst hreq'
    simp only [reqJava, PerfectReq]
    refine ⟨⟨some 1, some "language_java", some "programming", 1, "exact"⟩, rfl,
      rowC1, rfl, by decide, by decide, by decide, ?_⟩
    show (Real.exp 1 - 1) * ((max ((0 : Int)) 1 : Int) : ℝ) ≤ ((24 : Int) : ℝ)
    have h01 : ((max ((0 : Int)) 1 : Int) : ℝ) = 1 := by norm_num
    rw [h01, mul_one]
    have hexp := Real.exp_one_lt_d9
    push_cast
    linarith
  · rw [hsum]
    norm_num

/-- C1 (counterexample to the perfect-candidate clause as stated): the
eligible candidate of `storeFixture` satisfies every condition the claim
lists — maximal evidence strength, last use within 12 months (360
days), a non-vector method, and `total_months = 24 ≥ min_months = 24` —
against a JD whose single hard requirement it matches, with an exactly
representable maximum score; yet the final normalized score is
`round(100·ln 2, 4) = 69.3147`, not 100, because the logarithmic
experience factor `min(1, ln(1 + total/max(min,1)))` is `ln 2 < 1` when
`total_months` merely equals `min_months`. -/
theorem C1_min_months_counterexample :
    (∀ r ∈ candidate_score_rows storeFixture 1,
      3 ≤ r.MaxEvidenceStrength ∧
      todayFixture.ordinal - r.LastUsedDate.ordinal ≤ 360 ∧
      r.NormalizationMethod ≠ "vector" ∧
      (24 : Int) ≤ r.TotalMonths) ∧
    get_eligible_candidates cosZero storeFixture [] none todayFixture jdC1c = .ok {1} ∧
    calculate_max_possible_score [] jdC1c = sum_composite_weights [] jdC1c.requirements ∧
    scoreOf (score_candidate cosZero storeFixture [] none todayFixture jdC1c [] 1
      (calculate_max_possible_score [] jdC1c)) = 693147 / 10 ^ 4 ∧
    (693147 / 10 ^ 4 : ℝ) ≠ 100 := by
  have hsum : sum_composite_weights [] jdC1c.requirements = 1 := by
    norm_num [sum_composite_weights, jdC1c, composite_weight, jd_weight, skill_weight,
      dictGetQ, reqJavaMin24, Requirement.requirement_level]
  have hmax1 : calculate_max_possible_score [] jdC1c = 1 := by
    norm_num [calculate_max_possible_score, hsum, pyRoundQ, roundHalfEvenQ]
  refine ⟨by decide, rfl, by rw [hmax1, hsum], ?_, by norm_num⟩
  rw [hmax1]
  have hcrows : candidate_score_rows storeFixture 1 = [rowC1] := rfl
  have hmaster : storeFixture.masterSkills = [masterJava] := rfl
  have hrole : jdC1c.role_context = "ctx" := rfl
  have hreqs : jdC1c.requirements = [reqJavaMin24] := rfl
  have hm : normalize_and_match_skill cosZero "Java" [masterJava] [] none "ctx" false =
      .ok ⟨some 1, some "language_java", some "programming", 1, "exact"⟩ := rfl
  have hrow : by_skill [rowC1] (some "language_java") = some rowC1 := rfl
  have hef : exp_factor rowC1.TotalMonths 24 = Real.log 2 := by
    show min 1 (Real.log (1 + ((24 : Int) : ℝ) / ((max (24 : Int) 1 : Int) : ℝ))) =
      Real.log 2
    have h24 : ((max (24 : Int) 1 : Int) : ℝ) = 24 := by norm_num
    rw [h24]
    have h1 : ((24 : Int) : ℝ) / 24 = 1 := by norm_num
    rw [h1]
    have h2 : (1 : ℝ) + 1 = 2 := by norm_num
    rw [h2]
    exact min_eq_right (by linarith [Real.log_two_lt_d9])
  have hrf : recency_factor (todayFixture.ordinal - rowC1.LastUsedDate.ordinal) = 1 :=
    recency_factor_of_le _ (by decide)
  have hvf : evidence_factor rowC1.MaxEvidenceStrength = 1 :=
    evidence_factor_of_ge _ (by decide)
  have hpen : norm_penalty rowC1.NormalizationMethod = 1 := rfl
  cases hsr : score_requirement cosZero [masterJava] [] none todayFixture "ctx" []
      [rowC1] reqJavaMin24 with
  | error e =>
    simp only [reqJavaMin24, score_requirement, hm, hrow] at hsr
    exact Except.noConfusion hsr
  | ok ci =>
    obtain ⟨c, item⟩ := ci
    have hsr' := hsr
    simp only [reqJavaMin24, score_requirement, hm, hrow, Option.getD_some, hef, hrf,
      hvf, hpen, Except.ok.injEq, Prod.mk.injEq] at hsr
    obtain ⟨hc, -⟩ := hsr
    have hcval : c = Real.log 2 := by
      rw [← hc]
      norm_num [jd_weight, skill_weight, dictGetQ, Requirement.requirement_level]
    simp only [score_candidate, scoreOf, hmaster, hrole, hreqs, hcrows,
      score_requirements, hsr']
    rw [if_neg (one_ne_zero)]
    rw [hcval]
    have hsimp : (Real.log 2 + 0) / (((1 : ℚ) : ℝ)) * 100 = Real.log 2 * 100 * 1 := by
      push_cast
      ring
    rw [hsimp]
    have hlb := Real.log_two_gt_d9
    have hub := Real.log_two_lt_d9
    have hfloor : ⌊Real.log 2 * 100 * 1 * 10 ^ 4⌋ = 693147 := by
      rw [Int.floor_eq_iff]
      constructor
      · push_cast
        nlinarith
      · push_cast
        nlinarith
    have hround : roundHalfEvenR (Real.log 2 * 100 * 1 * 10 ^ 4) = 693147 := by
      simp only [roundHalfEvenR, hfloor]
      rw [if_pos]
      push_cast
      nlinarith
    simp only [pyRoundR, hround]
    norm_num

/-! ## C9: order of the ranked list -/

/-- `Except` bind on a success reduces to the continuation. -/
theorem exceptBind_ok {α β : Type} (a : α) (f : α → Except String β) :
    (Except.ok a >>= f : Except String β) = f a := rfl

/-- `pure` of the `Except` monad is `.ok`. -/
theorem exceptPure {α : Type} (a : α) : (pure a : Except String α) = .ok a := rfl

/-- Destructor for a successful `Except` bind. -/
theorem exceptBind_eq_ok {α β : Type} {m : Except String α} {f : α → Except String β}
    {b : β} (h : (m >>= f) = .ok b) : ∃ a, m = .ok a ∧ f a = .ok b := by
  cases m with
  | error e => exact Except.noConfusion h
  | ok a => exact ⟨a, rfl, h⟩

/-- Membership through the sort's insertion step. -/
theorem mem_insert_by_score (b x : RankedCandidate) (l : List RankedCandidate)
    (h : b ∈ insert_by_score x l) : b = x ∨ b ∈ l := by
  induction l with
  | nil => simpa [insert_by_score] using h
  | cons y ys ih =>
    rw [insert_by_score] at h
    split_ifs at h with hc
    · rcases List.mem_cons.mp h with rfl | h'
      · exact Or.inl rfl
      · exact Or.inr h'
    · rcases List.mem_cons.mp h with rfl | h'
      · exact Or.inr (List.mem_cons_self _ _)
      · rcases ih h' with rfl | h''
        · exact Or.inl rfl
        · exact Or.inr (List.mem_cons_of_mem _ h'')

/-- The insertion step preserves the descending-score invariant. -/
theorem pairwise_insert_by_score (x : RankedCandidate) (l : List RankedCandidate)
    (hl : l.Pairwise (fun a b => b.score ≤ a.score)) :
    (insert_by_score x l).Pairwise (fun a b => b.score ≤ a.score) := by
  induction l with
  | nil => simp [insert_by_score]
  | cons y ys ih =>
    rw [insert_by_score]
    obtain ⟨hy, hys⟩ := List.pairwise_cons.mp hl
    by_cases h : y.score ≤ x.score
    · rw [if_pos h]
      refine List.pairwise_cons.mpr ⟨?_, hl⟩
      intro b hb
      rcases List.mem_cons.mp hb with rfl | hb'
      · exact h
      · exact le_trans (hy b hb') h
    · rw [if_neg h]
      refine List.pairwise_cons.mpr ⟨?_, ih hys⟩
      intro b hb
      rcases mem_insert_by_score b x _ hb with rfl | hb'
      · exact le_of_lt (lt_of_not_ge h)
      · exact hy b hb'

/-- The engine's sort produces a descending-score list. -/
theorem sort_by_score_desc_pairwise (l : List RankedCandidate) :
    (sort_by_score_desc l).Pairwise (fun a b => b.score ≤ a.score) := by
  unfold sort_by_score_desc
  induction l with
  | nil => simp
  | cons x xs ih => exact pairwise_insert_by_score x _ ih

/-- C9 (amended): the list returned by `rank_candidates` is sorted by
final score descending and truncated to the first `limit` entries — but
the sort key is the score alone (`key=lambda x: x["score"]`,
`reverse=True`, a stable sort), so ties keep the iteration order of the
eligible-id set rather than breaking on `total_months` or `last_used`
as the specification claims. -/
theorem C9_rank_order_amended (cosF : List ℚ → List ℚ → ℚ) (st : Store)
    (vector_index : List VectorEntry) (embed_fn : Option (String → List ℚ))
    (today : Date) (names : Int → String) (role_weights : List (String × ℚ))
    (iterOrder : Finset Int → List Int) (jd : JobSkillProfile) (limit : Nat) :
    ∀ out, rank_candidates cosF st vector_index embed_fn today names role_weights
      iterOrder jd limit = .ok out →
      out.results.Pairwise (fun a b => b.score ≤ a.score) ∧
      out.results.length ≤ limit := by
  intro out h
  simp only [rank_candidates] at h
  obtain ⟨eligible, -, h⟩ := exceptBind_eq_ok h
  by_cases he : eligible = ∅
  · rw [if_pos he] at h
    simp only [Except.ok.injEq] at h
    subst h
    simp
  · rw [if_neg he] at h
    obtain ⟨entries, -, h⟩ := exceptBind_eq_ok h
    simp only [Except.ok.injEq] at h
    subst h
    constructor
    · exact (sort_by_score_desc_pairwise entries).sublist
        (List.take_sublist limit (sort_by_score_desc entries))
    · simp [List.length_take]

/-- Witness for C9 at a concrete input: a JD whose only hard requirement
resolves to no master skill is gated to an empty eligible set, and the
ranked output is the empty list, trivially sorted and within the limit. -/
theorem C9_rank_order_amended_witness :
    ((⟨[], "ctx"⟩ : RankOutput).results.Pairwise (fun a b => b.score ≤ a.score)) ∧
    (⟨[], "ctx"⟩ : RankOutput).results.length ≤ 50 :=
  C9_rank_order_amended cosZero storeFixture [] none todayFixture namesFixture []
    iterFixture jdFixtureC8 50 ⟨[], "ctx"⟩ rfl

/-- C9 (counterexample to the tie-break clause): two candidates both
score exactly 100 against the one-requirement JD, candidate 1 with 2
total months and candidate 2 with 100; with the eligible set iterated as
`[1, 2]`, `rank_candidates` returns them in that order — the stable sort
on the score alone keeps candidate 1 (fewer months) first, so the
claimed `total_months`-descending tie-break does not hold. -/
theorem C9_tie_break_counterexample :
    (rankResultsOf (rank_candidates cosZero storeC9 [] none todayFixture namesFixture []
        iterFixture jdC1w 50)).map (fun rc => (rc.candidate_id, rc.score)) =
      [(1, (100 : ℝ)), (2, 100)] ∧
    storeTotalMonths storeC9 1 < storeTotalMonths storeC9 2 ∧
    ¬ ScoreMonthsOrdered storeC9 (rankResultsOf (rank_candidates cosZero storeC9 []
        none todayFixture namesFixture [] iterFixture jdC1w 50)) := by
  have hsum : sum_composite_weights [] jdC1w.requirements = 1 := by
    norm_num [sum_composite_weights, jdC1w, composite_weight, jd_weight, skill_weight,
      dictGetQ, reqJava, Requirement.requirement_level]
  have hmax1 : calculate_max_possible_score [] jdC1w = 1 := by
    norm_num [calculate_max_possible_score, hsum, pyRoundQ, roundHalfEvenQ]
  have hperf1 : ∀ req ∈ jdC1w.requirements, PerfectReq cosZero storeC9.masterSkills []
      none todayFixture jdC1w.role_context (candidate_score_rows storeC9 1) req := by
    intro req hreq
    have hreq' : req = reqJava := by simpa [jdC1w] using hreq
    subst hreq'
    simp only [reqJava, PerfectReq]
    refine ⟨⟨some 1, some "language_java", some "programming", 1, "exact"⟩, rfl,
      rowC9a, rfl, by decide, by decide, by decide, ?_⟩
    show (Real.exp 1 - 1) * ((max ((0 : Int)) 1 : Int) : ℝ) ≤ ((2 : Int) : ℝ)
    have h01 : ((max ((0 : Int)) 1 : Int) : ℝ) = 1 := by norm_num
    rw [h01, mul_one]
    have hexp := Real.exp_one_lt_d9
    push_cast
    linarith
  have hperf2 : ∀ req ∈ jdC1w.requirements, PerfectReq cosZero storeC9.masterSkills []
      none todayFixture jdC1w.role_context (candidate_score_rows storeC9 2) req := by
    intro req hreq
    have hreq' : req = reqJava := by simpa [jdC1w] using hreq
    subst hreq'
    simp only [reqJava, PerfectReq]
    refine ⟨⟨some 1, some "language_java", some "programming", 1, "exact"⟩, rfl,
      rowC9b, rfl, by decide, by decide, by decide, ?_⟩
    show (Real.exp 1 - 1) * ((max ((0 : Int)) 1 : Int) : ℝ) ≤ ((100 : Int) : ℝ)
    have h01 : ((max ((0 : Int)) 1 : Int) : ℝ) = 1 := by norm_num
    rw [h01, mul_one]
    have hexp := Real.exp_one_lt_d9
    push_cast
    linarith
  obtain ⟨items1, hit1⟩ := score_requirements_perfect cosZero storeC9.masterSkills []
    none todayFixture jdC1w.role_context [] (candidate_score_rows storeC9 1)
    jdC1w.requirements hperf1
  obtain ⟨items2, hit2⟩ := score_requirements_perfect cosZero storeC9.masterSkills []
    none todayFixture jdC1w.role_context [] (candidate_score_rows storeC9 2)
    jdC1w.requirements hperf2
  have hMne : calculate_max_possible_score [] jdC1w ≠ 0 := by
    rw [hmax1]; exact one_ne_zero
  have hdiv : ((sum_composite_weights [] jdC1w.requirements : ℚ) : ℝ) /
      ((calculate_max_possible_score [] jdC1w : ℚ) : ℝ) * 100 = 100 := by
    rw [hsum, hmax1]; norm_num
  have hscore1 : score_candidate cosZero storeC9 [] none todayFixture jdC1w [] 1
      (calculate_max_possible_score [] jdC1w) = .ok (100, items1) := by
    simp only [score_candidate, hit1]
    rw [if_neg hMne, hdiv, pyRoundR4_100]
  have hscore2 : score_candidate cosZero storeC9 [] none todayFixture jdC1w [] 2
      (calculate_max_possible_score [] jdC1w) = .ok (100, items2) := by
    simp only [score_candidate, hit2]
    rw [if_neg hMne, hdiv, pyRoundR4_100]
  have hg : get_eligible_candidates cosZero storeC9 [] none todayFixture jdC1w =
      .ok ({1, 2} : Finset Int) := rfl
  have hne : ¬(({1, 2} : Finset Int) = ∅) := by decide
  have hs12 : (build_ranked_entry namesFixture jdC1w
      (calculate_max_possible_score [] jdC1w) 2 100 items2).score ≤
      (build_ranked_entry namesFixture jdC1w
      (calculate_max_possible_score [] jdC1w) 1 100 items1).score := le_of_eq rfl
  have hrank : rank_candidates cosZero storeC9 [] none todayFixture namesFixture []
      iterFixture jdC1w 50 = .ok ⟨[build_ranked_entry namesFixture jdC1w
        (calculate_max_possible_score [] jdC1w) 1 100 items1,
      build_ranked_entry namesFixture jdC1w
        (calculate_max_possible_score [] jdC1w) 2 100 items2],
      jdC1w.role_context⟩ := by
    simp only [rank_candidates, hg, exceptBind_ok]
    rw [if_neg hne]
    simp only [iterFixture, List.mapM_cons, List.mapM_nil, hscore1, hscore2,
      exceptBind_ok, exceptPure]
    simp only [sort_by_score_desc, List.foldr, insert_by_score, if_pos hs12]
    simp [List.take]
  refine ⟨?_, by decide, ?_⟩
  · rw [hrank]
    simp only [rankResultsOf, List.map_cons, List.map_nil]
    have hsa : (build_ranked_entry namesFixture jdC1w
        (calculate_max_possible_score [] jdC1w) 1 100 items1).score = 100 := by
      simp [build_ranked_entry, pyRoundR4_100]
    have hsb : (build_ranked_entry namesFixture jdC1w
        (calculate_max_possible_score [] jdC1w) 2 100 items2).score = 100 := by
      simp [build_ranked_entry, pyRoundR4_100]
    rw [hsa, hsb]
    rfl
  · rw [hrank]
    simp only [rankResultsOf]
    intro hord
    simp only [ScoreMonthsOrdered, List.pairwise_cons] at hord
    obtain ⟨h12, -⟩ := hord
    have hp := h12 _ (List.mem_cons_self _ _)
    have hsa : (build_ranked_entry namesFixture jdC1w
        (calculate_max_possible_score [] jdC1w) 1 100 items1).score = 100 := by
      simp [build_ranked_entry, pyRoundR4_100]
    have hsb : (build_ranked_entry namesFixture jdC1w
        (calculate_max_possible_score [] jdC1w) 2 100 items2).score = 100 := by
      simp [build_ranked_entry, pyRoundR4_100]
    have hid1 : (build_ranked_entry namesFixture jdC1w
        (calculate_max_possible_score [] jdC1w) 1 100 items1).candidate_id = 1 := rfl
    have hid2 : (build_ranked_entry namesFixture jdC1w
        (calculate_max_possible_score [] jdC1w) 2 100 items2).candidate_id = 2 := rfl
    rw [hsa, hsb, hid1, hid2] at hp
    rcases hp with hlt | ⟨-, hmon⟩
    · exact lt_irrefl _ hlt
    · have hm2 : storeTotalMonths storeC9 2 = 100 := by decide
      have hm1 : storeTotalMonths storeC9 1 = 2 := by decide
      rw [hm1, hm2] at hmon
      omega
